import Mathlib

/-!
Verification development for the `local-database-editor` repository
(`editor/views.py`, `editor/introspection.py`, `editor/db_manager.py`,
`editor/models.py`), shallowly embedded in Lean 4.

JSON-decoded Python values are modelled by the inductive `Value`
(Python `None`, `bool`, `int`, `float`, `str`, `decimal.Decimal`).
Python floats are modelled as exact rationals (no IEEE rounding; none of
the verified properties depend on rounding).  Python `Decimal` values are
modelled as a mantissa/scale pair `m * 10 ^ (-scale)`; the `Decimal`
scientific-notation forms (`1E+5`, `Infinity`, `NaN`) and underscore /
exponent forms of numeric literals are outside the modelled grammar.
Python `str.strip`, `str.lower`, `str.join` and `in` (substring) are
implemented directly on character lists so that every definition reduces
in the kernel.
-/

namespace LocalDbEditor

/-! ### Python string primitives -/

/-- Whitespace characters recognised by Python `str.strip()`. -/
def isPySpace (c : Char) : Bool :=
  c = ' ' || c = '\t' || c = '\n' || c = '\r' || c = '\x0b' || c = '\x0c'

/-- Python `str.strip()` on a character list: drop whitespace from both ends. -/
def pyStripChars (cs : List Char) : List Char :=
  ((cs.dropWhile isPySpace).reverse.dropWhile isPySpace).reverse

/-- Python `str.strip()`. -/
def pyStrip (s : String) : String :=
  String.mk (pyStripChars s.data)

/-- ASCII lowercase of one character (Python `str.lower()` on ASCII input). -/
def lowerChar (c : Char) : Char :=
  match c with
  | 'A' => 'a' | 'B' => 'b' | 'C' => 'c' | 'D' => 'd' | 'E' => 'e'
  | 'F' => 'f' | 'G' => 'g' | 'H' => 'h' | 'I' => 'i' | 'J' => 'j'
  | 'K' => 'k' | 'L' => 'l' | 'M' => 'm' | 'N' => 'n' | 'O' => 'o'
  | 'P' => 'p' | 'Q' => 'q' | 'R' => 'r' | 'S' => 's' | 'T' => 't'
  | 'U' => 'u' | 'V' => 'v' | 'W' => 'w' | 'X' => 'x' | 'Y' => 'y'
  | 'Z' => 'z' | c => c

/-- Python `str.lower()` (ASCII). -/
def pyLower (s : String) : String :=
  String.mk (s.data.map lowerChar)

/-- Does `pat` occur as a contiguous run at the head of `cs`? -/
def listHeadRun : List Char → List Char → Bool
  | [], _ => true
  | _ :: _, [] => false
  | a :: as, b :: bs => a = b && listHeadRun as bs

/-- Python `pat in s` (substring containment) on character lists. -/
def listHasRun (pat : List Char) : List Char → Bool
  | [] => listHeadRun pat []
  | c :: rest => listHeadRun pat (c :: rest) || listHasRun pat rest

/-- Python `s.startswith(pat)`. -/
def strStartsWithPy (s pat : String) : Bool :=
  listHeadRun pat.data s.data

/-- Python `pat in s` on strings. -/
def strHasRun (s pat : String) : Bool :=
  listHasRun pat.data s.data

/-- Python `":".join parts` (used by `_cache_key`). -/
def joinColon : List String → String
  | [] => ""
  | [s] => s
  | s :: rest => s ++ ":" ++ joinColon rest

/-! ### Decimal digit rendering and parsing -/

/-- The character of a decimal digit (`n < 10`). -/
def digitChar (n : Nat) : Char :=
  match n with
  | 0 => '0' | 1 => '1' | 2 => '2' | 3 => '3' | 4 => '4'
  | 5 => '5' | 6 => '6' | 7 => '7' | 8 => '8' | _ => '9'

/-- Is `c` a decimal digit character? -/
def isDigitCh (c : Char) : Bool :=
  '0' ≤ c && c ≤ '9'

/-- Numeric value of a digit character. -/
def digitVal (c : Char) : Nat :=
  c.toNat - 48

/-- Little-endian decimal digits of a natural number; fuel-structured so the
kernel can reduce it (`fuel = n` suffices since `n / 10 < n` for `n > 0`). -/
def natDigitsLEAux : Nat → Nat → List Nat
  | 0, _ => []
  | _ + 1, 0 => []
  | fuel + 1, n + 1 => ((n + 1) % 10) :: natDigitsLEAux fuel ((n + 1) / 10)

/-- Little-endian decimal digits of `n` (empty for `0`). -/
def natDigitsLE (n : Nat) : List Nat :=
  natDigitsLEAux n n

/-- Value of a little-endian digit list. -/
def ofDigitsLE : List Nat → Nat
  | [] => 0
  | d :: ds => d + 10 * ofDigitsLE ds

/-- Decimal character rendering of a natural number (`"0"` for zero). -/
def natChars (n : Nat) : List Char :=
  if n = 0 then ['0'] else (natDigitsLE n).reverse.map digitChar

/-- Big-endian value of a digit character list. -/
def digitsToNat (cs : List Char) : Nat :=
  cs.foldl (fun a c => 10 * a + digitVal c) 0

/-- Python `str(n)` for an integer. -/
def intStr (n : Int) : String :=
  String.mk ((if n < 0 then ['-'] else []) ++ natChars n.natAbs)

/-- Python `str(n)` for a natural number. -/
def natStr (n : Nat) : String :=
  String.mk (natChars n)

/-- Strip one optional leading sign; returns (isNegative, rest). -/
def splitSign : List Char → Bool × List Char
  | [] => (false, [])
  | c :: r =>
    if c = '-' then (true, r)
    else if c = '+' then (false, r)
    else (false, c :: r)

/-- Apply a parsed sign to a natural magnitude. -/
def signedInt (neg : Bool) (n : Nat) : Int :=
  if neg then -(n : Int) else n

/-! ### The dynamic value model -/

/-- A Python `decimal.Decimal` value `m * 10 ^ (-scale)`, trailing zeros
preserved (no normalisation), matching `Decimal`'s coefficient/exponent
representation for non-scientific literals. -/
structure Dec where
  m : Int
  scale : Nat
deriving DecidableEq, Repr

/-- A JSON-decoded Python value as seen by the row CRUD engine. -/
inductive Value where
  | vnull
  | vbool (b : Bool)
  | vint (n : Int)
  | vfloat (q : Rat)
  | vstr (s : String)
  | vdec (d : Dec)
deriving DecidableEq, Repr

/-- Digits-and-dot tail of the decimal literal parser: `ip` is the leading
digit run, `rest` what follows it. -/
def parseDigitsDot (neg : Bool) (ip rest : List Char) : Option Dec :=
  match rest with
  | [] =>
    if ip = [] then none
    else some ⟨signedInt neg (digitsToNat ip), 0⟩
  | c :: fp =>
    if c = '.' && fp.all isDigitCh && !(ip = [] && fp = []) then
      some ⟨signedInt neg (digitsToNat (ip ++ fp)), fp.length⟩
    else none

/-- Parse an unsigned/signed decimal literal `[+-]digits[.digits]` into a
`Dec` (the `decimal.Decimal` constructor on such literals).  Exponent,
`Infinity`/`NaN` and underscore forms are outside the modelled grammar. -/
def parsePyDecChars (cs : List Char) : Option Dec :=
  parseDigitsDot (splitSign cs).1 ((splitSign cs).2.takeWhile isDigitCh)
    ((splitSign cs).2.dropWhile isDigitCh)

/-- Python `int(s)` on a string: optional sign then digits (surrounding
whitespace and underscores of the CPython grammar are not modelled). -/
def parsePyIntChars (cs : List Char) : Option Int :=
  let sp := splitSign cs
  if sp.2 ≠ [] && sp.2.all isDigitCh then some (signedInt sp.1 (digitsToNat sp.2))
  else none

/-- Python `float(s)` on a string, as an exact rational.  Shares the decimal
literal grammar with `parsePyDecChars`. -/
def parsePyFloatStr (s : String) : Option Rat :=
  (parsePyDecChars s.data).map (fun d => (d.m : Rat) / (10 : Rat) ^ d.scale)

/-- Python `str(Decimal)` for `Dec` values: positional decimal notation
(the scientific form CPython uses for tiny exponents is outside the
modelled value range). -/
def strDecChars (d : Dec) : List Char :=
  let digs := natChars d.m.natAbs
  let digs := if digs.length ≤ d.scale then List.replicate (d.scale + 1 - digs.length) '0' ++ digs else digs
  let body :=
    if d.scale = 0 then natChars d.m.natAbs
    else digs.take (digs.length - d.scale) ++ '.' :: digs.drop (digs.length - d.scale)
  if d.m < 0 then '-' :: body else body

/-- Python `str(float)` for the rational float model: sign, integer part,
`'.'`, then 17 truncated fraction digits.  Always contains `'.'`; the exact
digit string of CPython's shortest-roundtrip repr is not reproduced (no
verified property depends on it). -/
def strFloatChars (q : Rat) : List Char :=
  let sign : List Char := if q < 0 then ['-'] else []
  let n := q.num.natAbs
  let den := q.den
  let fracDigits := natChars (n % den * 10 ^ 17 / den)
  sign ++ natChars (n / den) ++ '.' ::
    (List.replicate (17 - fracDigits.length) '0' ++ fracDigits)

/-- Python `str(val)` on the modelled values. -/
def strValue : Value → String
  | .vnull => "None"
  | .vbool b => if b then "True" else "False"
  | .vint n => intStr n
  | .vfloat q => String.mk (strFloatChars q)
  | .vstr s => s
  | .vdec d => String.mk (strDecChars d)

/-! ### Value coercion (`views._coerce_value`, views.py lines 36-79) -/

/-- Membership in `_DATE_TYPES ∪ _TS_TYPES ∪ _TIME_TYPES` (the first `if` of
`_coerce_value` tests membership in the three sets disjunctively). -/
def isDateTimeFam (dt : String) : Bool :=
  dt = "date" ||
  dt = "timestamp with time zone" || dt = "timestamp without time zone" ||
  dt = "time with time zone" || dt = "time without time zone"

/-- Python `dt in _BOOL_TYPES`. -/
def isBoolFam (dt : String) : Bool :=
  dt = "boolean"

/-- Python `dt in _INT_TYPES`. -/
def isIntFam (dt : String) : Bool :=
  dt = "integer" || dt = "bigint" || dt = "smallint" || dt = "serial" || dt = "bigserial"

/-- Python `dt in _FLOAT_TYPES`. -/
def isFloatFam (dt : String) : Bool :=
  dt = "real" || dt = "double precision"

/-- Python `dt in _DECIMAL_TYPES`. -/
def isDecFam (dt : String) : Bool :=
  dt = "numeric" || dt = "decimal"

/-- Python `val is None or (isinstance(val, str) and val.strip() == "")`. -/
def isNoneOrEmptyStr : Value → Bool
  | .vnull => true
  | .vstr s => pyStrip s = ""
  | _ => false

/-- Python `isinstance(val, str)`. -/
def isStrInst : Value → Bool
  | .vstr _ => true
  | _ => false

/-- Python `isinstance(val, str) and val.strip() != ""`. -/
def strNonEmptyTrim : Value → Bool
  | .vstr s => !(pyStrip s = "")
  | _ => false

/-- Python `isinstance(val, bool)`. -/
def isBoolInst : Value → Bool
  | .vbool _ => true
  | _ => false

/-- Python `isinstance(val, int)`: a Python `bool` is an `int`. -/
def isIntInst : Value → Bool
  | .vint _ => true
  | .vbool _ => true
  | _ => false

/-- Python `isinstance(val, float)`. -/
def isFloatInst : Value → Bool
  | .vfloat _ => true
  | _ => false

/-- Python `isinstance(val, Decimal)`. -/
def isDecInst : Value → Bool
  | .vdec _ => true
  | _ => false

/-- Python `isinstance(val, (int, float))`. -/
def isIntOrFloatInst (v : Value) : Bool :=
  isIntInst v || isFloatInst v

/-- Guard of the integer and float branches:
`val is not None and (isinstance(val, str) and val.strip() != "" or isinstance(val, (int, float)))`. -/
def numGuard (v : Value) : Bool :=
  !(v = Value.vnull) && ((isStrInst v && strNonEmptyTrim v) || isIntOrFloatInst v)

/-- Guard of the decimal branch: as `numGuard` but with
`isinstance(val, (int, float, Decimal))`. -/
def decGuard (v : Value) : Bool :=
  !(v = Value.vnull) && ((isStrInst v && strNonEmptyTrim v) || (isIntOrFloatInst v || isDecInst v))

/-- Python `int(val)`; `none` models the raised `ValueError`/`TypeError`.  `Int.tdiv`
truncates toward zero like Python `int(float)`. -/
def pyIntConv : Value → Option Int
  | .vstr s => parsePyIntChars s.data
  | .vint n => some n
  | .vbool b => some (if b then 1 else 0)
  | .vfloat q => some (Int.tdiv q.num (q.den : Int))
  | .vdec d => some (Int.tdiv d.m ((10 : Int) ^ d.scale))
  | .vnull => none

/-- Python `float(val)`; `none` models the raised exception. -/
def pyFloatConv : Value → Option Rat
  | .vstr s => parsePyFloatStr s
  | .vint n => some (n : Rat)
  | .vbool b => some (if b then 1 else 0)
  | .vfloat q => some q
  | .vdec d => some ((d.m : Rat) / (10 : Rat) ^ d.scale)
  | .vnull => none

/-- The boolean branch of `_coerce_value` (views.py lines 53-63). -/
def boolBranch (val : Value) : Value :=
  if isNoneOrEmptyStr val then .vnull
  else if isBoolInst val then val
  else
    let s := pyLower (pyStrip (strValue val))
    if s = "t" || s = "true" || s = "1" || s = "yes" || s = "on" then .vbool true
    else if s = "f" || s = "false" || s = "0" || s = "no" || s = "off" then .vbool false
    else .vnull

/-- The integer branch (views.py lines 64-68):
`return int(val) if not isinstance(val, int) else val`, exceptions caught. -/
def intBranch (val : Value) : Value :=
  if isIntInst val then val
  else
    match pyIntConv val with
    | some n => .vint n
    | none => val

/-- The float branch (views.py lines 69-73). -/
def floatBranch (val : Value) : Value :=
  if isFloatInst val then val
  else
    match pyFloatConv val with
    | some q => .vfloat q
    | none => val

/-- The decimal branch (views.py lines 74-78): `Decimal(str(val))`,
exceptions caught. -/
def decBranch (val : Value) : Value :=
  match parsePyDecChars (strValue val).data with
  | some d => .vdec d
  | none => val

/-- The tail of `_coerce_value` after the date/timestamp/time empty-check: the chain of
`if dt in FAMILY and GUARD` statements.  A date-family `dt` matches none of
these conditions and falls through to `return val`. -/
def coerceTail (dt : String) (val : Value) : Value :=
  if isBoolFam dt then boolBranch val
  else if isIntFam dt && numGuard val then intBranch val
  else if isFloatFam dt && numGuard val then floatBranch val
  else if isDecFam dt && decGuard val then decBranch val
  else val

/-- Dispatch of `_coerce_value` on an already stripped and lowercased type name. -/
def coerceDt (dt : String) (val : Value) : Value :=
  if isDateTimeFam dt && isNoneOrEmptyStr val then .vnull
  else coerceTail dt val

/-- The helper `views._coerce_value(val, data_type)`: `data_type` is `None` or a
PostgreSQL type name, stripped and lowercased before dispatch. -/
def _coerce_value (val : Value) (dataType : Option String) : Value :=
  match dataType with
  | none => val
  | some d => coerceDt (pyLower (pyStrip d)) val

/-- The boolean coercion rule as the specification words it: case-insensitive
(and whitespace-stripped) membership of `str(val)` in the truthy/falsy token
sets, everything else (empty string and null included) mapping to null.
Spec-side definition, to be compared with the code's `boolBranch`. -/
def boolCoercionSpec (v : Value) : Value :=
  if v = Value.vnull then Value.vnull
  else
    let s := pyLower (pyStrip (strValue v))
    if s = "t" || s = "true" || s = "1" || s = "yes" || s = "on" then .vbool true
    else if s = "f" || s = "false" || s = "0" || s = "no" || s = "off" then .vbool false
    else .vnull

/-! ### Metadata cache and introspection (`editor/introspection.py`) -/

/-- One entry of `get_columns`: name, data_type, is_nullable, column_default
(introspection.py lines 76-84). -/
structure Col where
  name : String
  data_type : String
  is_nullable : Bool
  column_default : Option String
deriving DecidableEq, Repr

/-- A value stored in Django's cache by the introspection module.  The cache
itself is untyped; entries are tagged here by the producing function. -/
inductive CacheEntry where
  | schemas (names : List String)
  | tables (names : List String)
  | columns (cols : List Col)
  | pks (names : List String)
deriving DecidableEq, Repr

/-- The process-wide cache: a total lookup from key strings. -/
def Cache := String → Option CacheEntry

/-- A cache with no entries. -/
def emptyCache : Cache := fun _ => none

/-- Django `cache.set(key, v)` (TTL not modelled; all claims concern one instant). -/
def cacheSet (c : Cache) (k : String) (v : CacheEntry) : Cache :=
  fun x => if x = k then some v else c x

/-- Django `cache.delete(key)`. -/
def cacheDel (c : Cache) (k : String) : Cache :=
  fun x => if x = k then none else c x

/-- The key builder `_cache_key(prefix, *parts) = ":".join([prefix] + list(parts))`
(introspection.py lines 9-10). -/
def _cache_key (pre : String) (parts : List String) : String :=
  joinColon (pre :: parts)

/-- The key used by `get_schemas`. -/
def schemasKey (a : String) : String := _cache_key "editor" ["schemas", a]

/-- The key used by `get_tables`. -/
def tablesKey (a s : String) : String := _cache_key "editor" ["tables", a, s]

/-- The key used by `get_columns`. -/
def columnsKey (a s t : String) : String := _cache_key "editor" ["columns", a, s, t]

/-- The key used by `get_primary_key_columns`. -/
def pkKey (a s t : String) : String := _cache_key "editor" ["pk", a, s, t]

/-- Introspection `get_columns(db_alias, schema_name, table_name, refresh)`
(introspection.py lines 57-86).  `dbCols` stands for the
`information_schema.columns` query; a cache hit returns the stored entry
as-is (the Python cache is untyped), a miss queries and repopulates. -/
def get_columns (dbCols : String → String → String → List Col)
    (a s t : String) (refresh : Bool) (c : Cache) : CacheEntry × Cache :=
  match (if refresh then none else c (columnsKey a s t)) with
  | some v => (v, c)
  | none =>
    (CacheEntry.columns (dbCols a s t),
     cacheSet c (columnsKey a s t) (CacheEntry.columns (dbCols a s t)))

/-! ### Schema deletion (`introspection.delete_schema`, lines 186-238) -/

/-- A DDL statement issued by `delete_schema`:
`DROP SCHEMA IF EXISTS name [CASCADE]`. -/
inductive Ddl where
  | dropSchemaStmt (name : String) (cascade : Bool)
deriving DecidableEq, Repr

/-- Result of `delete_schema`: the `(success, error)` pair, the cache after
the call, and the DDL statement issued (if any). -/
structure DsOut where
  ok : Bool
  error : Option String
  cache : Cache
  ddl : Option Ddl

/-- Wrap a name in the single quotes Python f-strings put around it. -/
def pyQuote1 (s : String) : String := "\x27" ++ s ++ "\x27"

/-- The reserved system schemas (`{'pg_catalog', 'information_schema',
'pg_toast'}`). -/
def systemSchemas : List String := ["pg_catalog", "information_schema", "pg_toast"]

/-- The call `get_tables(db_alias, schema_name, refresh=True)` (introspection.py
lines 35-54): the cache read is bypassed, the fresh listing (`dbTables`)
is returned and cached under the tables key. -/
def get_tables_fresh (dbTables : String → String → List String) (a s : String)
    (c : Cache) : List String × Cache :=
  (dbTables a s, cacheSet c (tablesKey a s) (CacheEntry.tables (dbTables a s)))

/-- Per-table cache invalidation step of `delete_schema` (lines 229-232):
delete the (schema-scoped) tables key and the table's columns and pk keys. -/
def dropTableKeysDel (dbAlias name : String) (cc : Cache) (t : String) : Cache :=
  cacheDel (cacheDel (cacheDel cc (tablesKey dbAlias name))
    (columnsKey dbAlias name t)) (pkKey dbAlias name t)

/-- The function `delete_schema(db_alias, schema_name, force)`: name validation, system
schema guard, fresh non-emptiness check gated by `force`, the drop (CASCADE
exactly when forced, executed by `ddlExec`), and on success the cache
invalidation of the schema list key and, per previously listed table, the
tables / columns / pk keys.  The stripped name is written out in place of
Python's rebinding of `schema_name`. -/
def delete_schema (dbTables : String → String → List String)
    (ddlExec : Ddl → Except String Unit) (dbAlias schemaName : String)
    (force : Bool) (c : Cache) : DsOut :=
  if schemaName = "" || pyStrip schemaName = "" then
    ⟨false, some "Schema name cannot be empty", c, none⟩
  else if pyLower (pyStrip schemaName) ∈ systemSchemas ||
      strStartsWithPy (pyLower (pyStrip schemaName)) "pg_" then
    ⟨false, some ("Cannot delete system schema " ++ pyQuote1 (pyStrip schemaName)), c, none⟩
  else if (get_tables_fresh dbTables dbAlias (pyStrip schemaName) c).1 ≠ [] && !force then
    ⟨false,
     some ("Schema " ++ pyQuote1 (pyStrip schemaName) ++ " contains " ++
       natStr (get_tables_fresh dbTables dbAlias (pyStrip schemaName) c).1.length ++
       " table(s). Use force delete to remove them."),
     (get_tables_fresh dbTables dbAlias (pyStrip schemaName) c).2, none⟩
  else
    match ddlExec (Ddl.dropSchemaStmt (pyStrip schemaName) force) with
    | .error e =>
      ⟨false, some e, (get_tables_fresh dbTables dbAlias (pyStrip schemaName) c).2,
       some (Ddl.dropSchemaStmt (pyStrip schemaName) force)⟩
    | .ok _ =>
      ⟨true, none,
       (get_tables_fresh dbTables dbAlias (pyStrip schemaName) c).1.foldl
         (dropTableKeysDel dbAlias (pyStrip schemaName))
         (cacheDel (get_tables_fresh dbTables dbAlias (pyStrip schemaName) c).2
           (schemasKey dbAlias)),
       some (Ddl.dropSchemaStmt (pyStrip schemaName) force)⟩

/-! ### Batched row update and delete (`views.table_save_rows` lines 481-543,
`views.table_delete_rows` lines 622-677) -/

/-- One element of the `rows` payload of `table_save_rows`: `pk` is `none`
when `row.get("pk")` is missing or not an object; `columns` is
`row.get("columns") or {}` made total. -/
structure UpdateRowInput where
  pk : Option (List (String × Value))
  columns : List (String × Value)
deriving DecidableEq, Repr

/-- Python dict access `m.get(k)` on an assoc list. -/
def alookup (l : List (String × Value)) (k : String) : Option Value :=
  (l.find? (fun p => p.1 = k)).map (·.2)

/-- Metadata lookup `(column_by_name.get(c) or {}).get("data_type")`. -/
def colTypeOf (columns : List Col) (cname : String) : Option String :=
  (columns.find? (fun cl => cl.name = cname)).map (·.data_type)

/-- The parameterized `UPDATE ... SET ... WHERE pk = ...` one accepted batch
row produces: coerced SET pairs in payload order, raw primary-key WHERE
pairs in pk-column order. -/
structure UpdStmt where
  setPairs : List (String × Value)
  wherePairs : List (String × Value)
deriving DecidableEq, Repr

/-- The parameterized `DELETE ... WHERE pk = ...` statement. -/
structure DelStmt where
  wherePairs : List (String × Value)
deriving DecidableEq, Repr

/-- The JSON response of a batch endpoint. -/
inductive BatchResp (ε : Type) where
  | fatal (msg : String)
  | failed (errors : List ε)
  | succeeded (count : Nat)
deriving DecidableEq, Repr

/-- Database state after the call, together with the response. -/
structure BatchOutcome (σ ε : Type) where
  db : σ
  resp : BatchResp ε
deriving DecidableEq

/-- The row loop of `table_save_rows` (lines 519-538): per-row pk validation,
allowlist filtering of update columns, coercion, and execution via the
injected `execUpd` (the `cur.execute` of the live cursor), accumulating the
updated rowcount and the per-row error list. -/
def saveRowsLoop {σ : Type} (execUpd : σ → UpdStmt → Except String (σ × Nat))
    (colAllow pkCols : List String) (colTypes : String → Option String) :
    σ → Nat → List (UpdateRowInput × String) → List UpdateRowInput →
      σ × Nat × List (UpdateRowInput × String)
  | db, updated, errors, [] => (db, updated, errors)
  | db, updated, errors, row :: rest =>
    match row.pk with
    | none =>
      saveRowsLoop execUpd colAllow pkCols colTypes db updated
        (errors ++ [(row, "Invalid or missing primary key")]) rest
    | some pkm =>
      if !(pkCols.all (fun k => (alookup pkm k).isSome)) then
        saveRowsLoop execUpd colAllow pkCols colTypes db updated
          (errors ++ [(row, "Invalid or missing primary key")]) rest
      else if row.columns.filter (fun kv => kv.1 ∈ colAllow ∧ kv.1 ∉ pkCols) = [] then
        saveRowsLoop execUpd colAllow pkCols colTypes db updated errors rest
      else
        match execUpd db
          { setPairs := (row.columns.filter (fun kv => kv.1 ∈ colAllow ∧ kv.1 ∉ pkCols)).map
              (fun kv => (kv.1, _coerce_value kv.2 (colTypes kv.1))),
            wherePairs := pkCols.map (fun k => (k, (alookup pkm k).getD .vnull)) } with
        | .ok r =>
          saveRowsLoop execUpd colAllow pkCols colTypes r.1 (updated + r.2) errors rest
        | .error e =>
          saveRowsLoop execUpd colAllow pkCols colTypes db updated
            (errors ++ [(row, e)]) rest

/-- The view `table_save_rows` after request validation: no-PK tables are refused;
otherwise the loop runs inside `transaction.atomic` and any accumulated row
error raises, rolling the database back to its initial state and reporting
the error list; an error-free batch commits and reports the count. -/
def table_save_rows_core {σ : Type} (execUpd : σ → UpdStmt → Except String (σ × Nat))
    (columns : List Col) (pkCols : List String) (db : σ) (rows : List UpdateRowInput) :
    BatchOutcome σ (UpdateRowInput × String) :=
  if pkCols = [] then ⟨db, .fatal "Table has no primary key"⟩
  else
    let r := saveRowsLoop execUpd (columns.map (·.name)) pkCols (colTypeOf columns) db 0 [] rows
    if r.2.2 = [] then ⟨r.1, .succeeded r.2.1⟩ else ⟨db, .failed r.2.2⟩

/-- The row loop of `table_delete_rows` (lines 659-670). -/
def deleteRowsLoop {σ : Type} (execDel : σ → DelStmt → Except String (σ × Nat))
    (pkCols : List String) :
    σ → Nat → List (Option (List (String × Value)) × String) →
      List (Option (List (String × Value))) →
      σ × Nat × List (Option (List (String × Value)) × String)
  | db, deleted, errors, [] => (db, deleted, errors)
  | db, deleted, errors, pk :: rest =>
    match pk with
    | none =>
      deleteRowsLoop execDel pkCols db deleted
        (errors ++ [(none, "Invalid or missing primary key")]) rest
    | some pkm =>
      if !(pkCols.all (fun k => (alookup pkm k).isSome)) then
        deleteRowsLoop execDel pkCols db deleted
          (errors ++ [(some pkm, "Invalid or missing primary key")]) rest
      else
        match execDel db ⟨pkCols.map (fun k => (k, (alookup pkm k).getD .vnull))⟩ with
        | .ok r => deleteRowsLoop execDel pkCols r.1 (deleted + r.2) errors rest
        | .error e =>
          deleteRowsLoop execDel pkCols db deleted (errors ++ [(some pkm, e)]) rest

/-- The view `table_delete_rows` after request validation, with the same atomic
rollback-on-any-error discipline as `table_save_rows_core`. -/
def table_delete_rows_core {σ : Type} (execDel : σ → DelStmt → Except String (σ × Nat))
    (pkCols : List String) (db : σ) (pks : List (Option (List (String × Value)))) :
    BatchOutcome σ (Option (List (String × Value)) × String) :=
  if pkCols = [] then ⟨db, .fatal "Table has no primary key"⟩
  else
    let r := deleteRowsLoop execDel pkCols db 0 [] pks
    if r.2.2 = [] then ⟨r.1, .succeeded r.2.1⟩ else ⟨db, .failed r.2.2⟩

/-! ### Concrete UPDATE/DELETE semantics for a modelled table (C10) -/

/-- A stored table row: column name to value. -/
abbrev DbRow := List (String × Value)

/-- The WHERE clause `pk_col = %s AND ...` evaluated against a stored row
(SQL tri-valued NULL comparison is not modelled; no claim depends on it). -/
def pkMatchesRow (wps : List (String × Value)) (r : DbRow) : Bool :=
  wps.all (fun kv =>
    match alookup r kv.1 with
    | some v => v = kv.2
    | none => false)

/-- Apply the SET pairs of an UPDATE to one row. -/
def applySet (sets : List (String × Value)) (r : DbRow) : DbRow :=
  r.map (fun kv =>
    match alookup sets kv.1 with
    | some v => (kv.1, v)
    | none => kv)

/-- Semantics of `UPDATE schema.table SET ... WHERE pk = ...`: rewrites every matching
row, reports the matched rowcount, never errors on zero matches. -/
def execUpdateSql (db : List DbRow) (st : UpdStmt) : Except String (List DbRow × Nat) :=
  .ok (db.map (fun r => if pkMatchesRow st.wherePairs r then applySet st.setPairs r else r),
    (db.filter (fun r => pkMatchesRow st.wherePairs r)).length)

/-- Semantics of `DELETE FROM schema.table WHERE pk = ...`. -/
def execDeleteSql (db : List DbRow) (st : DelStmt) : Except String (List DbRow × Nat) :=
  .ok (db.filter (fun r => !pkMatchesRow st.wherePairs r),
    (db.filter (fun r => pkMatchesRow st.wherePairs r)).length)

/-! ### Row insertion (`views.table_insert_row` lines 546-619 and
`introspection.get_pk_sequence_columns` lines 89-104) -/

/-- Primary-key columns whose default expression contains `nextval`
(stripped, lowercased substring test). -/
def get_pk_sequence_columns (columns : List Col) (pkCols : List String) : List String :=
  (columns.filter (fun c => c.name ∈ pkCols ∧
    strHasRun (pyLower (pyStrip (c.column_default.getD ""))) "nextval" = true)).map (·.name)

/-- Python `val is None or (isinstance(val, str) and val.strip() == "")`, where a
missing key and a JSON null both arrive as Python `None` via `cols.get(c)`. -/
def isEmptyInput : Option Value → Bool
  | none => true
  | some .vnull => true
  | some (.vstr s) => pyStrip s = ""
  | some _ => false

/-- The column-selection loop of `table_insert_row` (lines 578-591): walk the
declared columns, omit sequence-backed PK columns, fail hard on an empty
non-sequence PK column or an empty non-nullable column, and collect the
rest. -/
def insertColsLoop (columns : List Col) (pkCols pkSeq : List String)
    (cols : List (String × Value)) : List String → List String → Except String (List String)
  | acc, [] => .ok acc
  | acc, c :: rest =>
    if c ∈ pkSeq then insertColsLoop columns pkCols pkSeq cols acc rest
    else if c ∉ columns.map (·.name) then insertColsLoop columns pkCols pkSeq cols acc rest
    else if (c ∈ pkCols) && isEmptyInput (alookup cols c) then
      .error ("Primary key column " ++ pyQuote1 c ++ " is required (no sequence).")
    else if isEmptyInput (alookup cols c) &&
        !(((columns.find? (fun cl => cl.name = c)).map (·.is_nullable)).getD false) then
      .error ("Non-nullable column " ++ pyQuote1 c ++ " requires a value.")
    else insertColsLoop columns pkCols pkSeq cols (acc ++ [c]) rest

/-- The view `table_insert_row` after request validation: the ordered insert column
list and its parameter values (empty values sent as null, others coerced),
or the first validation error; an empty selection fails. -/
def table_insert_row_core (columns : List Col) (pkCols : List String)
    (cols : List (String × Value)) : Except String (List String × List Value) :=
  match insertColsLoop columns pkCols (get_pk_sequence_columns columns pkCols) cols []
      (columns.map (·.name)) with
  | .error e => .error e
  | .ok insertCols =>
    if insertCols = [] then .error "No columns to insert"
    else
      .ok (insertCols, insertCols.map (fun c =>
        if isEmptyInput (alookup cols c) then Value.vnull
        else _coerce_value ((alookup cols c).getD .vnull)
          ((columns.find? (fun cl => cl.name = c)).map (·.data_type))))

/-- Is the call an error response? -/
def isErrE {α : Type} : Except String α → Bool
  | .error _ => true
  | .ok _ => false

/-! ### Grid pagination and sorting (`views.table_grid` lines 391-416) -/

/-- Line 414: `per_page = min(int(request.GET.get("per_page", 50) or 50), 200)`:
the requested size is clamped from above only.  Modelled on the parsed
integer value (a missing or empty parameter arrives as 50). -/
def gridPerPage (requested : Int) : Int := min requested 200

/-- Line 415: `page_num = max(1, int(request.GET.get("page", 1) or 1))`. -/
def gridPageNum (requested : Int) : Int := max 1 requested

/-- Line 416: `offset = (page_num - 1) * per_page`. -/
def gridOffset (reqPage reqSize : Int) : Int :=
  (gridPageNum reqPage - 1) * gridPerPage reqSize

/-- Python `(request.GET.get("order") or "asc")`: a missing or empty parameter
falls back to `asc`. -/
def orderOrAsc : Option String → String
  | none => "asc"
  | some s => if s = "" then "asc" else s

/-- Line 395: `sort_col and sort_col in col_allowlist`. -/
def sortColOk (column_names : List String) : Option String → Bool
  | none => false
  | some s => !(s = "") && s ∈ column_names

/-- Sort resolution of `table_grid` (lines 391-398): the effective
(order column, order direction).  `column_names[0]` on a zero-column table
would raise IndexError; that is modelled by `headD ""` and excluded by the
claims' premise of at least one column. -/
def resolve_sort (column_names pk_columns : List String)
    (sortParam orderParam : Option String) : String × String :=
  ((if sortColOk column_names sortParam then sortParam.getD ""
    else
      match pk_columns with
      | p :: _ => p
      | [] => column_names.headD ""),
   (if pyLower (orderOrAsc orderParam) = "asc" ∨ pyLower (orderOrAsc orderParam) = "desc"
    then pyLower (orderOrAsc orderParam) else "asc"))

/-! ### Connection registry (`editor/db_manager.py` lines 13-43 and
`models.DatabaseConfig.get_connection_config` lines 85-102) -/

/-- A stored `DatabaseConfig` row (the decrypted password is what the code
reads back). -/
structure DbConfigM where
  userId : Nat
  aliasName : String
  host : String
  port : Int
  database : String
  schemaName : String
  username : String
  password : String
deriving DecidableEq, Repr

/-- A full Django connection descriptor as built by
`get_connection_config`. -/
structure ConnDesc where
  engine : String
  name : String
  user : String
  password : String
  host : String
  port : String
  connectTimeout : Nat
  atomicRequests : Bool
  timeZone : Option String
  autocommit : Bool
  connHealthChecks : Bool
  connMaxAge : Nat
deriving DecidableEq, Repr

/-- The method `DatabaseConfig.get_connection_config`: the descriptor with the fixed
operational defaults (`AUTOCOMMIT` on, `CONN_MAX_AGE` 0, health checks off,
the process `TIME_ZONE`, `ATOMIC_REQUESTS` off, 10-unit connect timeout). -/
def get_connection_config (cfg : DbConfigM) (settingsTz : Option String) : ConnDesc :=
  { engine := "django.db.backends.postgresql"
    name := cfg.database
    user := cfg.username
    password := cfg.password
    host := cfg.host
    port := intStr cfg.port
    connectTimeout := 10
    atomicRequests := false
    timeZone := settingsTz
    autocommit := true
    connHealthChecks := false
    connMaxAge := 0 }

/-- Django's live registry: `connections.databases` plus the set of aliases
with an open handle. -/
structure Registry where
  databases : List (String × ConnDesc)
  openAliases : List String
deriving DecidableEq, Repr

/-- Overwrite-or-insert into an alias-keyed assoc list. -/
def assocSet (l : List (String × ConnDesc)) (k : String) (v : ConnDesc) :
    List (String × ConnDesc) :=
  (k, v) :: l.filter (fun p => p.1 ≠ k)

/-- Lookup in the registry map. -/
def assocGet (l : List (String × ConnDesc)) (k : String) : Option ConnDesc :=
  (l.find? (fun p => p.1 = k)).map (·.2)

/-- Django `DatabaseConfig.objects.get(...)`: exactly-one semantics of the Django
manager, scoped to the owner when one is given. -/
def objects_get (store : List DbConfigM) (user : Option Nat) (a : String) :
    Except String DbConfigM :=
  match store.filter (fun c => c.aliasName = a &&
      match user with
      | some u => c.userId = u
      | none => true) with
  | [c] => .ok c
  | [] => .error "DatabaseConfig.DoesNotExist"
  | _ => .error "MultipleObjectsReturned"

/-- The function `ensure_database_connection(db_alias, user)`: loads the stored config
(raising `DoesNotExist` when absent, leaving the registry untouched),
unconditionally overwrites `connections.databases[db_alias]` with the fresh
descriptor, and closes any open handle for the alias so the next use
reconnects (`if db_alias in connections: connections[db_alias].close()` —
always reached since the alias was just installed). -/
def ensure_database_connection (store : List DbConfigM) (settingsTz : Option String)
    (dbAlias : String) (user : Option Nat) (reg : Registry) : Except String Registry :=
  match objects_get store user dbAlias with
  | .error e => .error e
  | .ok cfg =>
    .ok { databases := assocSet reg.databases dbAlias (get_connection_config cfg settingsTz)
          openAliases := reg.openAliases.filter (fun b => b ≠ dbAlias) }

/-! ### Theorems

First the digit rendering / parsing round-trip machinery, the type-family
disjointness facts, and idempotence of every branch of `_coerce_value`;
then the claim theorems (`c1_...` to `c10_...`), each with its witness or
counterexample. -/

theorem ofDigitsLE_natDigitsLEAux (fuel n : Nat) (h : n ≤ fuel) :
    ofDigitsLE (natDigitsLEAux fuel n) = n := by
  induction fuel generalizing n with
  | zero => interval_cases n; rfl
  | succ f ih =>
    cases n with
    | zero => rfl
    | succ m =>
      have hd : (m + 1) / 10 ≤ f := by
        have := Nat.div_lt_self (Nat.succ_pos m) (by norm_num : 1 < 10)
        omega
      simp only [natDigitsLEAux, ofDigitsLE, ih _ hd]
      omega

theorem ofDigitsLE_natDigitsLE (n : Nat) : ofDigitsLE (natDigitsLE n) = n :=
  ofDigitsLE_natDigitsLEAux n n le_rfl

theorem natDigitsLEAux_lt10 (fuel n : Nat) : ∀ d ∈ natDigitsLEAux fuel n, d < 10 := by
  induction fuel generalizing n with
  | zero => simp [natDigitsLEAux]
  | succ f ih =>
    cases n with
    | zero => simp [natDigitsLEAux]
    | succ m =>
      simp only [natDigitsLEAux, List.mem_cons]
      rintro d (rfl | hd)
      · exact Nat.mod_lt _ (by norm_num)
      · exact ih _ d hd

theorem digitVal_digitChar (d : Nat) (h : d < 10) : digitVal (digitChar d) = d := by
  interval_cases d <;> decide

theorem isDigitCh_digitChar (d : Nat) (h : d < 10) : isDigitCh (digitChar d) = true := by
  interval_cases d <;> decide

theorem digitsToNat_from (a : Nat) (cs : List Char) :
    cs.foldl (fun x c => 10 * x + digitVal c) a = a * 10 ^ cs.length + digitsToNat cs := by
  induction cs generalizing a with
  | nil => simp [digitsToNat]
  | cons c rest ih =>
    simp only [List.foldl_cons, digitsToNat, List.length_cons]
    rw [ih (10 * a + digitVal c), ih (10 * 0 + digitVal c)]
    ring

theorem digitsToNat_append (xs ys : List Char) :
    digitsToNat (xs ++ ys) = digitsToNat xs * 10 ^ ys.length + digitsToNat ys := by
  simp only [digitsToNat, List.foldl_append]
  exact digitsToNat_from _ ys

theorem digitsToNat_replicate_zero (k : Nat) :
    digitsToNat (List.replicate k '0') = 0 := by
  induction k with
  | zero => rfl
  | succ n ih =>
    have h : List.replicate (n + 1) '0' = List.replicate n '0' ++ ['0'] := by
      rw [List.replicate_succ']
    rw [h, digitsToNat_append, ih]
    rfl

theorem digitsToNat_rev_map (ds : List Nat) (h : ∀ d ∈ ds, d < 10) :
    digitsToNat (ds.reverse.map digitChar) = ofDigitsLE ds := by
  induction ds with
  | nil => rfl
  | cons d rest ih =>
    simp only [List.reverse_cons, List.map_append, List.map_cons, List.map_nil]
    rw [digitsToNat_append]
    simp only [List.length_cons, List.length_nil, ofDigitsLE]
    rw [ih (fun x hx => h x (List.mem_cons_of_mem d hx))]
    have hd : digitsToNat [digitChar d] = d := by
      simp [digitsToNat, digitVal_digitChar d (h d (List.mem_cons_self d rest))]
    rw [hd]
    ring

theorem natDigitsLE_lt10 (n : Nat) : ∀ d ∈ natDigitsLE n, d < 10 :=
  natDigitsLEAux_lt10 n n

theorem digitsToNat_natChars (n : Nat) : digitsToNat (natChars n) = n := by
  by_cases h : n = 0
  · subst h; decide
  · rw [natChars, if_neg h, digitsToNat_rev_map _ (natDigitsLE_lt10 n),
      ofDigitsLE_natDigitsLE]

theorem natChars_all_digits (n : Nat) : ∀ c ∈ natChars n, isDigitCh c = true := by
  by_cases h : n = 0
  · subst h; decide
  · rw [natChars, if_neg h]
    intro c hc
    rw [List.mem_map] at hc
    obtain ⟨d, hd, rfl⟩ := hc
    rw [List.mem_reverse] at hd
    exact isDigitCh_digitChar d (natDigitsLE_lt10 n d hd)

theorem natChars_ne_nil (n : Nat) : natChars n ≠ [] := by
  by_cases h : n = 0
  · subst h; decide
  · rw [natChars, if_neg h]
    intro hc
    simp only [List.map_eq_nil_iff, List.reverse_eq_nil_iff] at hc
    cases n with
    | zero => exact h rfl
    | succ m => simp [natDigitsLE, natDigitsLEAux] at hc

theorem takeWhile_digits_append (a : List Char) (x : Char) (b : List Char)
    (ha : ∀ c ∈ a, isDigitCh c = true) (hx : isDigitCh x = false) :
    (a ++ x :: b).takeWhile isDigitCh = a ∧ (a ++ x :: b).dropWhile isDigitCh = x :: b := by
  induction a with
  | nil => simp [List.takeWhile_cons, List.dropWhile_cons, hx]
  | cons c rest ih =>
    have hc : isDigitCh c = true := ha c (List.mem_cons_self c rest)
    have hr := ih (fun y hy => ha y (List.mem_cons_of_mem c hy))
    simp only [List.cons_append, List.takeWhile_cons, List.dropWhile_cons, hc, if_true]
    refine ⟨?_, hr.2⟩
    rw [hr.1]

theorem takeWhile_digits_all (a : List Char) (ha : ∀ c ∈ a, isDigitCh c = true) :
    a.takeWhile isDigitCh = a ∧ a.dropWhile isDigitCh = [] := by
  induction a with
  | nil => simp
  | cons c rest ih =>
    have hc : isDigitCh c = true := ha c (List.mem_cons_self c rest)
    have hr := ih (fun y hy => ha y (List.mem_cons_of_mem c hy))
    simp only [List.takeWhile_cons, List.dropWhile_cons, hc, if_true]
    refine ⟨?_, hr.2⟩
    rw [hr.1]

theorem digit_not_sign (c : Char) (h : isDigitCh c = true) : c ≠ '-' ∧ c ≠ '+' := by
  constructor <;> rintro rfl <;> simp [isDigitCh] at h

theorem splitSign_digit_head (c : Char) (r : List Char) (h : isDigitCh c = true) :
    splitSign (c :: r) = (false, c :: r) := by
  obtain ⟨h1, h2⟩ := digit_not_sign c h
  simp [splitSign, h1, h2]

theorem splitSign_signed (neg : Bool) (c : Char) (r : List Char) (h : isDigitCh c = true) :
    splitSign ((if neg then ['-'] else []) ++ c :: r) = (neg, c :: r) := by
  cases neg with
  | false => simpa using splitSign_digit_head c r h
  | true => simp [splitSign]

theorem parse_signed_digits (a : List Char) (ha : ∀ c ∈ a, isDigitCh c = true)
    (hne : a ≠ []) (neg : Bool) :
    parsePyDecChars ((if neg then ['-'] else []) ++ a) =
      some ⟨signedInt neg (digitsToNat a), 0⟩ := by
  obtain ⟨c, r, rfl⟩ : ∃ c r, a = c :: r := by
    cases a with
    | nil => exact absurd rfl hne
    | cons c r => exact ⟨c, r, rfl⟩
  have hw := takeWhile_digits_all _ ha
  rw [parsePyDecChars, splitSign_signed neg c r (ha c (List.mem_cons_self c r))]
  simp only [hw.1, hw.2, parseDigitsDot]
  rw [if_neg (by simp : ¬(c :: r = []))]

theorem parse_signed_dotted (a b : List Char) (ha : ∀ c ∈ a, isDigitCh c = true)
    (hb : ∀ c ∈ b, isDigitCh c = true) (hane : a ≠ []) (neg : Bool) :
    parsePyDecChars ((if neg then ['-'] else []) ++ a ++ '.' :: b) =
      some ⟨signedInt neg (digitsToNat (a ++ b)), b.length⟩ := by
  obtain ⟨c, r, rfl⟩ : ∃ c r, a = c :: r := by
    cases a with
    | nil => exact absurd rfl hane
    | cons c r => exact ⟨c, r, rfl⟩
  have hw := takeWhile_digits_append (c :: r) '.' b ha (by decide)
  have hball : b.all isDigitCh = true := by
    rw [List.all_eq_true]; exact hb
  simp only [List.cons_append] at hw ⊢
  rw [List.append_assoc] at *
  simp only [List.cons_append, List.nil_append] at hw ⊢
  rw [parsePyDecChars,
    splitSign_signed neg c (r ++ '.' :: b) (ha c (List.mem_cons_self c r))]
  simp only [hw.1, hw.2, parseDigitsDot, hball]
  simp

theorem natAbs_signedInt (m : Int) : signedInt (decide (m < 0)) m.natAbs = m := by
  by_cases h : m < 0
  · have hd : decide (m < 0) = true := by simp [h]
    rw [hd]
    simp only [signedInt, if_true]
    omega
  · have hd : decide (m < 0) = false := by simp [h]
    rw [hd]
    simp only [signedInt, Bool.false_eq_true, if_false]
    omega

theorem parse_strDec (d : Dec) : parsePyDecChars (strDecChars d) = some d := by
  rcases d with ⟨m, scale⟩
  have hdigs := natChars_all_digits m.natAbs
  have hsign : (if m < 0 then ['-'] else []) = (if decide (m < 0) then ['-'] else []) := by
    by_cases h : m < 0 <;> simp [h]
  by_cases hs : scale = 0
  · subst hs
    have hbody : strDecChars ⟨m, 0⟩ =
        (if m < 0 then ['-'] else []) ++ natChars m.natAbs := by
      simp only [strDecChars, if_pos rfl]
      by_cases hm : m < 0 <;> simp [hm]
    rw [hbody, hsign, parse_signed_digits _ hdigs (natChars_ne_nil _),
      digitsToNat_natChars, natAbs_signedInt]
  · -- positional with a dot
    set digs0 := natChars m.natAbs with hdigs0
    set padded := if digs0.length ≤ scale then
        List.replicate (scale + 1 - digs0.length) '0' ++ digs0 else digs0 with hpad
    have hpad_digits : ∀ c ∈ padded, isDigitCh c = true := by
      rw [hpad]
      split
      · intro c hc
        rcases List.mem_append.mp hc with h | h
        · rw [List.eq_of_mem_replicate h]; decide
        · exact hdigs c h
      · exact hdigs
    have hpad_len : scale + 1 ≤ padded.length := by
      rw [hpad]
      split
      · rw [List.length_append, List.length_replicate]
        have hne := natChars_ne_nil m.natAbs
        have : 1 ≤ digs0.length := by
          rw [hdigs0]
          cases h : natChars m.natAbs with
          | nil => exact absurd h hne
          | cons a l => simp [h]
        omega
      · omega
    have hpad_val : digitsToNat padded = m.natAbs := by
      rw [hpad]
      split
      · rw [digitsToNat_append, digitsToNat_replicate_zero, hdigs0, digitsToNat_natChars]
        ring
      · rw [hdigs0, digitsToNat_natChars]
    have hbody : strDecChars ⟨m, scale⟩ =
        (if m < 0 then ['-'] else []) ++
          padded.take (padded.length - scale) ++ '.' :: padded.drop (padded.length - scale) := by
      simp only [strDecChars, if_neg hs]
      by_cases hm : m < 0 <;> simp [hm, hpad, hdigs0]
    have htk : ∀ c ∈ padded.take (padded.length - scale), isDigitCh c = true :=
      fun c hc => hpad_digits c (List.take_subset _ _ hc)
    have hdp : ∀ c ∈ padded.drop (padded.length - scale), isDigitCh c = true :=
      fun c hc => hpad_digits c (List.drop_subset _ _ hc)
    have htkne : padded.take (padded.length - scale) ≠ [] := by
      intro h
      have := congrArg List.length h
      rw [List.length_take] at this
      simp at this
      omega
    rw [hbody, hsign, parse_signed_dotted _ _ htk hdp htkne,
      List.take_append_drop, hpad_val, natAbs_signedInt, List.length_drop]
    simp only [Option.some.injEq, Dec.mk.injEq]
    refine ⟨by trivial, by omega⟩

theorem boolBranch_out (v : Value) :
    boolBranch v = .vnull ∨ ∃ b, boolBranch v = .vbool b := by
  rw [boolBranch]
  split
  · exact .inl rfl
  · split
    · rename_i hb
      cases v with
      | vbool b => exact .inr ⟨b, rfl⟩
      | vnull => exact .inl rfl
      | vint n => simp [isBoolInst] at hb
      | vfloat q => simp [isBoolInst] at hb
      | vstr s => simp [isBoolInst] at hb
      | vdec d => simp [isBoolInst] at hb
    · dsimp only
      split
      · exact .inr ⟨true, rfl⟩
      · split
        · exact .inr ⟨false, rfl⟩
        · exact .inl rfl

theorem boolBranch_vnull : boolBranch .vnull = .vnull := rfl

theorem boolBranch_vbool (b : Bool) : boolBranch (.vbool b) = .vbool b := by
  cases b <;> rfl

theorem boolBranch_idem (v : Value) : boolBranch (boolBranch v) = boolBranch v := by
  rcases boolBranch_out v with h | ⟨b, h⟩ <;> rw [h]
  · exact boolBranch_vnull
  · exact boolBranch_vbool b

theorem intBranch_idem (v : Value) : intBranch (intBranch v) = intBranch v := by
  by_cases h1 : isIntInst v = true
  · have hv : intBranch v = v := by rw [intBranch, if_pos h1]
    rw [hv]
    exact hv
  · cases hp : pyIntConv v with
    | none =>
      have hv : intBranch v = v := by rw [intBranch, if_neg h1, hp]
      rw [hv]
      exact hv
    | some n =>
      have hv : intBranch v = .vint n := by rw [intBranch, if_neg h1, hp]
      rw [hv, intBranch, if_pos (show isIntInst (Value.vint n) = true from rfl)]

theorem floatBranch_idem (v : Value) : floatBranch (floatBranch v) = floatBranch v := by
  by_cases h1 : isFloatInst v = true
  · have hv : floatBranch v = v := by rw [floatBranch, if_pos h1]
    rw [hv]
    exact hv
  · cases hp : pyFloatConv v with
    | none =>
      have hv : floatBranch v = v := by rw [floatBranch, if_neg h1, hp]
      rw [hv]
      exact hv
    | some q =>
      have hv : floatBranch v = .vfloat q := by rw [floatBranch, if_neg h1, hp]
      rw [hv, floatBranch, if_pos (show isFloatInst (Value.vfloat q) = true from rfl)]

theorem decBranch_vdec (d : Dec) : decBranch (.vdec d) = .vdec d := by
  rw [decBranch]
  show (match parsePyDecChars (strDecChars d) with
    | some d => Value.vdec d
    | none => Value.vdec d) = Value.vdec d
  rw [parse_strDec]

theorem decBranch_idem (v : Value) : decBranch (decBranch v) = decBranch v := by
  cases hp : parsePyDecChars (strValue v).data with
  | none =>
    have hv : decBranch v = v := by rw [decBranch, hp]
    rw [hv]
    exact hv
  | some d =>
    have hv : decBranch v = .vdec d := by rw [decBranch, hp]
    rw [hv]
    exact decBranch_vdec d

theorem isIntFam_cases (dt : String) (h : isIntFam dt = true) :
    dt = "integer" ∨ dt = "bigint" ∨ dt = "smallint" ∨ dt = "serial" ∨ dt = "bigserial" := by
  simp only [isIntFam, Bool.or_eq_true, decide_eq_true_eq] at h
  tauto

theorem isFloatFam_cases (dt : String) (h : isFloatFam dt = true) :
    dt = "real" ∨ dt = "double precision" := by
  simp only [isFloatFam, Bool.or_eq_true, decide_eq_true_eq] at h
  tauto

theorem isDecFam_cases (dt : String) (h : isDecFam dt = true) :
    dt = "numeric" ∨ dt = "decimal" := by
  simp only [isDecFam, Bool.or_eq_true, decide_eq_true_eq] at h
  tauto

theorem isDateTimeFam_cases (dt : String) (h : isDateTimeFam dt = true) :
    dt = "date" ∨ dt = "timestamp with time zone" ∨ dt = "timestamp without time zone" ∨
      dt = "time with time zone" ∨ dt = "time without time zone" := by
  simp only [isDateTimeFam, Bool.or_eq_true, decide_eq_true_eq] at h
  tauto

theorem intFam_disjoint (dt : String) (h : isIntFam dt = true) :
    isBoolFam dt = false ∧ isFloatFam dt = false ∧ isDecFam dt = false := by
  rcases isIntFam_cases dt h with rfl | rfl | rfl | rfl | rfl <;> decide

theorem floatFam_disjoint (dt : String) (h : isFloatFam dt = true) :
    isBoolFam dt = false ∧ isIntFam dt = false ∧ isDecFam dt = false := by
  rcases isFloatFam_cases dt h with rfl | rfl <;> decide

theorem decFam_disjoint (dt : String) (h : isDecFam dt = true) :
    isBoolFam dt = false ∧ isIntFam dt = false ∧ isFloatFam dt = false := by
  rcases isDecFam_cases dt h with rfl | rfl <;> decide

theorem dateFam_disjoint (dt : String) (h : isDateTimeFam dt = true) :
    isBoolFam dt = false ∧ isIntFam dt = false ∧ isFloatFam dt = false ∧ isDecFam dt = false := by
  rcases isDateTimeFam_cases dt h with rfl | rfl | rfl | rfl | rfl <;> decide

theorem coerceTail_id_of_no_fam (dt : String) (v : Value)
    (hb : isBoolFam dt = false) (hi : isIntFam dt = false)
    (hf : isFloatFam dt = false) (hd : isDecFam dt = false) :
    coerceTail dt v = v := by
  rw [coerceTail, hb, hi, hf, hd]
  simp

theorem coerceTail_bool (dt : String) (v : Value) (hb : isBoolFam dt = true) :
    coerceTail dt v = boolBranch v := by
  rw [coerceTail, hb]
  simp

theorem coerceTail_int (dt : String) (v : Value) (hb : isBoolFam dt = false)
    (hi : isIntFam dt = true) :
    coerceTail dt v = if numGuard v then intBranch v else v := by
  obtain ⟨-, hf, hd⟩ := intFam_disjoint dt hi
  rw [coerceTail, hb, hi, hf, hd]
  simp

theorem coerceTail_float (dt : String) (v : Value) (hb : isBoolFam dt = false)
    (hf : isFloatFam dt = true) :
    coerceTail dt v = if numGuard v then floatBranch v else v := by
  obtain ⟨-, hi, hd⟩ := floatFam_disjoint dt hf
  rw [coerceTail, hb, hi, hf, hd]
  simp

theorem coerceTail_dec (dt : String) (v : Value) (hb : isBoolFam dt = false)
    (hd : isDecFam dt = true) :
    coerceTail dt v = if decGuard v then decBranch v else v := by
  obtain ⟨-, hi, hf⟩ := decFam_disjoint dt hd
  rw [coerceTail, hb, hi, hf, hd]
  simp

theorem coerceTail_idem (dt : String) (v : Value) :
    coerceTail dt (coerceTail dt v) = coerceTail dt v := by
  by_cases hb : isBoolFam dt = true
  · rw [coerceTail_bool dt v hb, coerceTail_bool dt _ hb]
    exact boolBranch_idem v
  · rw [Bool.not_eq_true] at hb
    by_cases hi : isIntFam dt = true
    · rw [coerceTail_int dt v hb hi]
      by_cases hg : numGuard v = true
      · rw [if_pos hg, coerceTail_int dt _ hb hi]
        by_cases hg2 : numGuard (intBranch v) = true
        · rw [if_pos hg2]
          exact intBranch_idem v
        · rw [if_neg hg2]
      · rw [if_neg hg, coerceTail_int dt _ hb hi, if_neg hg]
    · rw [Bool.not_eq_true] at hi
      by_cases hf : isFloatFam dt = true
      · rw [coerceTail_float dt v hb hf]
        by_cases hg : numGuard v = true
        · rw [if_pos hg, coerceTail_float dt _ hb hf]
          by_cases hg2 : numGuard (floatBranch v) = true
          · rw [if_pos hg2]
            exact floatBranch_idem v
          · rw [if_neg hg2]
        · rw [if_neg hg, coerceTail_float dt _ hb hf, if_neg hg]
      · rw [Bool.not_eq_true] at hf
        by_cases hd : isDecFam dt = true
        · rw [coerceTail_dec dt v hb hd]
          by_cases hg : decGuard v = true
          · rw [if_pos hg, coerceTail_dec dt _ hb hd]
            by_cases hg2 : decGuard (decBranch v) = true
            · rw [if_pos hg2]
              exact decBranch_idem v
            · rw [if_neg hg2]
          · rw [if_neg hg, coerceTail_dec dt _ hb hd, if_neg hg]
        · rw [Bool.not_eq_true] at hd
          rw [coerceTail_id_of_no_fam dt v hb hi hf hd,
            coerceTail_id_of_no_fam dt v hb hi hf hd]

theorem coerceDt_idem (dt : String) (v : Value) :
    coerceDt dt (coerceDt dt v) = coerceDt dt v := by
  by_cases hdt : isDateTimeFam dt = true
  · obtain ⟨hb, hi, hf, hd⟩ := dateFam_disjoint dt hdt
    by_cases he : isNoneOrEmptyStr v = true
    · have h1 : coerceDt dt v = .vnull := by
        rw [coerceDt, hdt, he]
        rfl
      rw [h1, coerceDt, hdt]
      rfl
    · simp only [Bool.not_eq_true] at he
      have h1 : coerceDt dt v = v := by
        simp only [coerceDt, hdt, he, Bool.true_and, Bool.and_false, Bool.false_eq_true,
          if_false]
        exact coerceTail_id_of_no_fam dt v hb hi hf hd
      rw [h1, h1]
  · rw [Bool.not_eq_true] at hdt
    have hsimp : ∀ w, coerceDt dt w = coerceTail dt w := by
      intro w
      rw [coerceDt, hdt]
      simp
    rw [hsimp, hsimp]
    exact coerceTail_idem dt v

theorem coerce_value_idem (v : Value) (t : Option String) :
    _coerce_value (_coerce_value v t) t = _coerce_value v t := by
  cases t with
  | none => rfl
  | some d => exact coerceDt_idem (pyLower (pyStrip d)) v

theorem boolBranch_eq_spec (v : Value) : boolBranch v = boolCoercionSpec v := by
  cases v with
  | vnull => rfl
  | vbool b => cases b <;> rfl
  | vint n => rfl
  | vfloat q => rfl
  | vdec d => rfl
  | vstr s =>
    by_cases he : pyStrip s = ""
    · have h1 : boolBranch (.vstr s) = .vnull := by
        rw [boolBranch, if_pos (by simp [isNoneOrEmptyStr, he])]
      have h2 : boolCoercionSpec (.vstr s) = .vnull := by
        rw [boolCoercionSpec, if_neg (show ¬(Value.vstr s = Value.vnull) by simp)]
        dsimp only
        simp only [strValue]
        simp only [show pyLower (pyStrip s) = "" from by rw [he]; rfl]
        decide
      rw [h1, h2]
    · have hne : isNoneOrEmptyStr (.vstr s) = false := by
        simp [isNoneOrEmptyStr, he]
      rw [boolBranch, hne]
      simp only [Bool.false_eq_true, if_false]
      rw [show isBoolInst (.vstr s) = false from rfl]
      simp only [Bool.false_eq_true, if_false]
      rw [boolCoercionSpec, if_neg (show ¬(Value.vstr s = Value.vnull) by simp)]

theorem intFam_not_date (dt : String) (h : isIntFam dt = true) : isDateTimeFam dt = false := by
  rcases isIntFam_cases dt h with rfl | rfl | rfl | rfl | rfl <;> decide

theorem floatFam_not_date (dt : String) (h : isFloatFam dt = true) : isDateTimeFam dt = false := by
  rcases isFloatFam_cases dt h with rfl | rfl <;> decide

theorem decFam_not_date (dt : String) (h : isDecFam dt = true) : isDateTimeFam dt = false := by
  rcases isDecFam_cases dt h with rfl | rfl <;> decide

theorem coerceDt_eq_tail (dt : String) (v : Value) (h : isDateTimeFam dt = false) :
    coerceDt dt v = coerceTail dt v := by
  rw [coerceDt, h]
  simp

theorem numGuard_vstr (s : String) : numGuard (.vstr s) = !(decide (pyStrip s = "")) := by
  simp [numGuard, isStrInst, strNonEmptyTrim, isIntOrFloatInst, isIntInst, isFloatInst]

theorem decGuard_vstr (s : String) : decGuard (.vstr s) = !(decide (pyStrip s = "")) := by
  simp [decGuard, isStrInst, strNonEmptyTrim, isIntOrFloatInst, isIntInst, isFloatInst,
    isDecInst]

/-- C5, boolean part, generalized over an arbitrary raw type string whose
normalization is `boolean`. -/
theorem coerce_boolean_eq_spec (v : Value) (dt : String)
    (h : pyLower (pyStrip dt) = "boolean") :
    _coerce_value v (some dt) = boolCoercionSpec v := by
  rw [_coerce_value]
  show coerceDt (pyLower (pyStrip dt)) v = _
  rw [h, coerceDt_eq_tail _ _ (by decide), coerceTail_bool _ _ (by decide)]
  exact boolBranch_eq_spec v

theorem coerce_int_unparsed (dt s : String) (hi : isIntFam (pyLower (pyStrip dt)) = true)
    (hp : parsePyIntChars s.data = none) :
    _coerce_value (.vstr s) (some dt) = .vstr s := by
  rw [_coerce_value]
  show coerceDt (pyLower (pyStrip dt)) (.vstr s) = _
  rw [coerceDt_eq_tail _ _ (intFam_not_date _ hi),
    coerceTail_int _ _ (intFam_disjoint _ hi).1 hi]
  by_cases he : pyStrip s = ""
  · rw [if_neg]
    rw [numGuard_vstr]
    simp [he]
  · rw [if_pos (by rw [numGuard_vstr]; simp [he]), intBranch,
      if_neg (by rw [show isIntInst (.vstr s) = false from rfl]; simp)]
    show (match pyIntConv (.vstr s) with
      | some n => Value.vint n
      | none => Value.vstr s) = Value.vstr s
    rw [show pyIntConv (.vstr s) = parsePyIntChars s.data from rfl, hp]

theorem coerce_float_unparsed (dt s : String) (hf : isFloatFam (pyLower (pyStrip dt)) = true)
    (hp : parsePyFloatStr s = none) :
    _coerce_value (.vstr s) (some dt) = .vstr s := by
  rw [_coerce_value]
  show coerceDt (pyLower (pyStrip dt)) (.vstr s) = _
  rw [coerceDt_eq_tail _ _ (floatFam_not_date _ hf),
    coerceTail_float _ _ (floatFam_disjoint _ hf).1 hf]
  by_cases he : pyStrip s = ""
  · rw [if_neg]
    rw [numGuard_vstr]
    simp [he]
  · rw [if_pos (by rw [numGuard_vstr]; simp [he]), floatBranch,
      if_neg (by rw [show isFloatInst (.vstr s) = false from rfl]; simp)]
    show (match pyFloatConv (.vstr s) with
      | some q => Value.vfloat q
      | none => Value.vstr s) = Value.vstr s
    rw [show pyFloatConv (.vstr s) = parsePyFloatStr s from rfl, hp]

theorem coerce_dec_unparsed (dt s : String) (hd : isDecFam (pyLower (pyStrip dt)) = true)
    (hp : parsePyDecChars s.data = none) :
    _coerce_value (.vstr s) (some dt) = .vstr s := by
  rw [_coerce_value]
  show coerceDt (pyLower (pyStrip dt)) (.vstr s) = _
  rw [coerceDt_eq_tail _ _ (decFam_not_date _ hd),
    coerceTail_dec _ _ (decFam_disjoint _ hd).1 hd]
  by_cases he : pyStrip s = ""
  · rw [if_neg]
    rw [decGuard_vstr]
    simp [he]
  · rw [if_pos (by rw [decGuard_vstr]; simp [he]), decBranch]
    show (match parsePyDecChars (strValue (.vstr s)).data with
      | some d => Value.vdec d
      | none => Value.vstr s) = Value.vstr s
    rw [show (strValue (.vstr s)) = s from rfl, hp]

/-- C5: for every input value, coercion under the boolean type family follows
the truthy/falsy token rule (case-insensitive, stripped; anything else,
empty string and null included, maps to null); and for every unparseable
string input under the integer, float and decimal families the value is
returned unchanged — the total Lean function witnesses that `_coerce_value`
never raises. -/
theorem c5_coerce_value_boolean_rules_and_totality :
    (∀ (v : Value) (dt : String), pyLower (pyStrip dt) = "boolean" →
      _coerce_value v (some dt) = boolCoercionSpec v) ∧
    (∀ dt s : String, isIntFam (pyLower (pyStrip dt)) = true →
      parsePyIntChars s.data = none → _coerce_value (.vstr s) (some dt) = .vstr s) ∧
    (∀ dt s : String, isFloatFam (pyLower (pyStrip dt)) = true →
      parsePyFloatStr s = none → _coerce_value (.vstr s) (some dt) = .vstr s) ∧
    (∀ dt s : String, isDecFam (pyLower (pyStrip dt)) = true →
      parsePyDecChars s.data = none → _coerce_value (.vstr s) (some dt) = .vstr s) :=
  ⟨coerce_boolean_eq_spec, coerce_int_unparsed, coerce_float_unparsed, coerce_dec_unparsed⟩

/-- Witness for C5 at concrete inputs. -/
theorem c5_coerce_value_boolean_rules_and_totality_witness :
    _coerce_value (.vstr " ON ") (some " BOOLEAN ") = .vbool true ∧
    _coerce_value (.vstr "12abc") (some "integer") = .vstr "12abc" ∧
    _coerce_value (.vstr "x1.5") (some "real") = .vstr "x1.5" ∧
    _coerce_value (.vstr "3.1.4") (some "numeric") = .vstr "3.1.4" := by
  have h := c5_coerce_value_boolean_rules_and_totality
  refine ⟨?_, ?_, ?_, ?_⟩
  · exact (h.1 (.vstr " ON ") " BOOLEAN " (by decide)).trans (by decide)
  · exact h.2.1 "integer" "12abc" (by decide) (by decide)
  · exact h.2.2.1 "real" "x1.5" (by decide) (by decide)
  · exact h.2.2.2 "numeric" "3.1.4" (by decide) (by decide)

/-- C6: coercion is idempotent — `_coerce_value (_coerce_value v t) t`
equals `_coerce_value v t` for every value and every declared type. -/
theorem c6_coerce_value_idempotent (v : Value) (t : Option String) :
    _coerce_value (_coerce_value v t) t = _coerce_value v t :=
  coerce_value_idem v t

theorem strData_inj (x y : String) (h : x.data = y.data) : x = y := by
  cases x
  cases y
  exact congrArg String.mk h

theorem cacheSet_ne (c : Cache) (k k' : String) (v : CacheEntry) (h : k' ≠ k) :
    cacheSet c k v k' = c k' := by
  rw [cacheSet, if_neg h]

theorem cacheDel_ne (c : Cache) (k k' : String) (h : k' ≠ k) :
    cacheDel c k k' = c k' := by
  rw [cacheDel, if_neg h]

theorem append_colon_inj (xs ys r r' : List Char) (hx : ':' ∉ xs) (hy : ':' ∉ ys)
    (h : xs ++ ':' :: r = ys ++ ':' :: r') : xs = ys ∧ r = r' := by
  induction xs generalizing ys with
  | nil =>
    cases ys with
    | nil => simpa using h
    | cons b bs =>
      simp only [List.nil_append, List.cons_append, List.cons.injEq] at h
      have hmem : ':' ∈ b :: bs := by
        rw [← h.1]
        exact List.mem_cons_self _ _
      exact absurd hmem hy
  | cons a as ih =>
    cases ys with
    | nil =>
      simp only [List.cons_append, List.nil_append, List.cons.injEq] at h
      have hmem : ':' ∈ a :: as := by
        rw [h.1]
        exact List.mem_cons_self _ _
      exact absurd hmem hx
    | cons b bs =>
      simp only [List.cons_append, List.cons.injEq] at h
      obtain ⟨rfl, h2⟩ := h
      have hr := ih bs (fun hm => hx (List.mem_cons_of_mem _ hm))
        (fun hm => hy (List.mem_cons_of_mem _ hm)) h2
      exact ⟨by rw [hr.1], hr.2⟩

theorem columnsKey_data (a s t : String) :
    (columnsKey a s t).data =
      'e' :: 'd' :: 'i' :: 't' :: 'o' :: 'r' :: ':' ::
      ('c' :: 'o' :: 'l' :: 'u' :: 'm' :: 'n' :: 's' :: ':' ::
        (a.data ++ ':' :: (s.data ++ ':' :: t.data))) := by
  simp [columnsKey, _cache_key, joinColon, String.data_append]

theorem columnsKey_inj (a s t a' s' t' : String)
    (ha : ':' ∉ a.data) (hs : ':' ∉ s.data) (ha' : ':' ∉ a'.data) (hs' : ':' ∉ s'.data)
    (h : columnsKey a s t = columnsKey a' s' t') : a = a' ∧ s = s' ∧ t = t' := by
  have hd := congrArg String.data h
  rw [columnsKey_data, columnsKey_data] at hd
  simp only [List.cons.injEq, true_and] at hd
  obtain ⟨h1, h2⟩ := append_colon_inj a.data a'.data _ _ ha ha' hd
  obtain ⟨h3, h4⟩ := append_colon_inj s.data s'.data _ _ hs hs' h2
  exact ⟨strData_inj _ _ h1, strData_inj _ _ h3, strData_inj _ _ h4⟩

/-- C3 (counterexample): with colon-bearing names, two distinct scope tuples
share one cache key, so populating the cache for (alias `a:b`, schema `c`,
table `t`) is observable when reading (alias `a`, schema `b:c`, table `t`):
the read returns the other tuple's columns instead of its own. -/
theorem c3_cache_scoping_counterexample :
    (get_columns
        (fun al _ _ => if al = "a" then [⟨"only_in_a", "text", true, none⟩]
          else [⟨"other", "text", true, none⟩])
        "a" "b:c" "t" false
        (get_columns
          (fun al _ _ => if al = "a" then [⟨"only_in_a", "text", true, none⟩]
            else [⟨"other", "text", true, none⟩])
          "a:b" "c" "t" false emptyCache).2).1 =
      CacheEntry.columns [⟨"other", "text", true, none⟩] ∧
    (get_columns
        (fun al _ _ => if al = "a" then [⟨"only_in_a", "text", true, none⟩]
          else [⟨"other", "text", true, none⟩])
        "a" "b:c" "t" false emptyCache).1 =
      CacheEntry.columns [⟨"only_in_a", "text", true, none⟩] := by
  constructor <;> decide

/-- C3 (amended): for scope tuples built from colon-free alias and schema
names, distinct tuples have distinct cache keys, so populating the columns
cache for one tuple is never observable when reading the other. -/
theorem c3_cache_scoping_colonfree (dbCols : String → String → String → List Col)
    (a s t a' s' t' : String) (c : Cache) (r : Bool)
    (ha : ':' ∉ a.data) (hs : ':' ∉ s.data) (ha' : ':' ∉ a'.data) (hs' : ':' ∉ s'.data)
    (hne : ¬(a = a' ∧ s = s' ∧ t = t')) :
    (get_columns dbCols a' s' t' false ((get_columns dbCols a s t r c).2)).1 =
      (get_columns dbCols a' s' t' false c).1 := by
  have hkey : columnsKey a' s' t' ≠ columnsKey a s t := by
    intro h
    obtain ⟨h1, h2, h3⟩ := columnsKey_inj a' s' t' a s t ha' hs' ha hs h
    exact hne ⟨h1.symm, h2.symm, h3.symm⟩
  have hc2 : (get_columns dbCols a s t r c).2 (columnsKey a' s' t') =
      c (columnsKey a' s' t') := by
    rw [get_columns]
    cases h1 : (if r then none else c (columnsKey a s t)) with
    | some v => rfl
    | none => exact cacheSet_ne c _ _ _ hkey
  set G := get_columns dbCols a s t r c with hG
  rw [get_columns, get_columns]
  simp only [Bool.false_eq_true, if_false, hc2]
  cases hcv : c (columnsKey a' s' t') with
  | some v => rfl
  | none => rfl

/-- Witness for the amended C3 at concrete colon-free inputs. -/
theorem c3_cache_scoping_colonfree_witness :
    (get_columns (fun al _ _ => [⟨al, "text", true, none⟩]) "al2" "s" "t" false
        ((get_columns (fun al _ _ => [⟨al, "text", true, none⟩]) "al1" "s" "t" false
          emptyCache).2)).1 =
      (get_columns (fun al _ _ => [⟨al, "text", true, none⟩]) "al2" "s" "t" false
        emptyCache).1 :=
  c3_cache_scoping_colonfree (fun al _ _ => [⟨al, "text", true, none⟩])
    "al1" "s" "t" "al2" "s" "t" emptyCache false
    (by decide) (by decide) (by decide) (by decide) (by decide)

theorem cacheDel_self (c : Cache) (k : String) : cacheDel c k k = none := by
  rw [cacheDel, if_pos rfl]

theorem cacheDel_none_stable (c : Cache) (j k : String) (h : c k = none) :
    cacheDel c j k = none := by
  rw [cacheDel]
  split
  · rfl
  · exact h

theorem dropTableKeysDel_none_stable (A N : String) (cc : Cache) (t k : String)
    (h : cc k = none) : dropTableKeysDel A N cc t k = none := by
  rw [dropTableKeysDel]
  exact cacheDel_none_stable _ _ _ (cacheDel_none_stable _ _ _ (cacheDel_none_stable _ _ _ h))

theorem foldDel_none_stable (A N : String) (l : List String) (cc : Cache) (k : String)
    (h : cc k = none) : (l.foldl (dropTableKeysDel A N) cc) k = none := by
  induction l generalizing cc with
  | nil => exact h
  | cons t rest ih =>
    rw [List.foldl_cons]
    exact ih _ (dropTableKeysDel_none_stable A N cc t k h)

theorem dropTableKeysDel_hits (A N : String) (cc : Cache) (t : String) :
    dropTableKeysDel A N cc t (tablesKey A N) = none ∧
    dropTableKeysDel A N cc t (columnsKey A N t) = none ∧
    dropTableKeysDel A N cc t (pkKey A N t) = none := by
  refine ⟨?_, ?_, cacheDel_self _ _⟩
  · exact cacheDel_none_stable _ _ _ (cacheDel_none_stable _ _ _ (cacheDel_self _ _))
  · exact cacheDel_none_stable _ _ _ (cacheDel_self _ _)

theorem foldDel_hits (A N : String) (l : List String) (cc : Cache) (t : String)
    (ht : t ∈ l) :
    (l.foldl (dropTableKeysDel A N) cc) (tablesKey A N) = none ∧
    (l.foldl (dropTableKeysDel A N) cc) (columnsKey A N t) = none ∧
    (l.foldl (dropTableKeysDel A N) cc) (pkKey A N t) = none := by
  induction l generalizing cc with
  | nil => cases ht
  | cons t0 rest ih =>
    rw [List.foldl_cons]
    rcases List.mem_cons.mp ht with rfl | hmem
    · obtain ⟨h1, h2, h3⟩ := dropTableKeysDel_hits A N cc t
      exact ⟨foldDel_none_stable A N rest _ _ h1, foldDel_none_stable A N rest _ _ h2,
        foldDel_none_stable A N rest _ _ h3⟩
    · exact ih _ hmem

/-- C7: for a clean (stripped, non-empty, non-system) schema name whose fresh
table listing is non-empty, `delete_schema` with `force = false` fails with a
count-bearing message and issues no DDL; with `force = true` (or when the
schema is empty) the drop is issued (CASCADE exactly when forced) and on DDL
success the schema-list cache key and, for each previously listed table, the
tables / columns / pk cache keys are invalidated. -/
theorem c7_delete_schema_guard_and_invalidation
    (dbTables : String → String → List String) (ddlExec : Ddl → Except String Unit)
    (dbAlias schemaName : String) (c : Cache)
    (hstrip : pyStrip schemaName = schemaName) (hne : schemaName ≠ "")
    (hsys : (pyLower schemaName ∈ systemSchemas ||
      strStartsWithPy (pyLower schemaName) "pg_") = false) :
    (dbTables dbAlias schemaName ≠ [] →
      (delete_schema dbTables ddlExec dbAlias schemaName false c).ok = false ∧
      (delete_schema dbTables ddlExec dbAlias schemaName false c).ddl = none ∧
      (delete_schema dbTables ddlExec dbAlias schemaName false c).error =
        some ("Schema " ++ pyQuote1 schemaName ++ " contains " ++
          natStr (dbTables dbAlias schemaName).length ++
          " table(s). Use force delete to remove them.")) ∧
    (∀ force : Bool,
      ddlExec (Ddl.dropSchemaStmt schemaName force) = .ok () →
      (force = true ∨ dbTables dbAlias schemaName = []) →
      (delete_schema dbTables ddlExec dbAlias schemaName force c).ok = true ∧
      (delete_schema dbTables ddlExec dbAlias schemaName force c).ddl =
        some (Ddl.dropSchemaStmt schemaName force) ∧
      (delete_schema dbTables ddlExec dbAlias schemaName force c).cache
        (schemasKey dbAlias) = none ∧
      (∀ t ∈ dbTables dbAlias schemaName,
        (delete_schema dbTables ddlExec dbAlias schemaName force c).cache
          (tablesKey dbAlias schemaName) = none ∧
        (delete_schema dbTables ddlExec dbAlias schemaName force c).cache
          (columnsKey dbAlias schemaName t) = none ∧
        (delete_schema dbTables ddlExec dbAlias schemaName force c).cache
          (pkKey dbAlias schemaName t) = none)) := by
  have hunf : ∀ force : Bool,
      delete_schema dbTables ddlExec dbAlias schemaName force c =
      (if ((dbTables dbAlias schemaName ≠ []) && !force) = true then
        ⟨false,
         some ("Schema " ++ pyQuote1 schemaName ++ " contains " ++
           natStr (dbTables dbAlias schemaName).length ++
           " table(s). Use force delete to remove them."),
         (get_tables_fresh dbTables dbAlias schemaName c).2, none⟩
      else
        match ddlExec (Ddl.dropSchemaStmt schemaName force) with
        | .error e =>
          ⟨false, some e, (get_tables_fresh dbTables dbAlias schemaName c).2,
           some (Ddl.dropSchemaStmt schemaName force)⟩
        | .ok _ =>
          ⟨true, none,
           (dbTables dbAlias schemaName).foldl
             (dropTableKeysDel dbAlias schemaName)
             (cacheDel (get_tables_fresh dbTables dbAlias schemaName c).2
               (schemasKey dbAlias)),
           some (Ddl.dropSchemaStmt schemaName force)⟩) := by
    intro force
    rw [delete_schema]
    rw [if_neg (by simp [hstrip, hne])]
    rw [hstrip]
    rw [if_neg (by simp only [hsys]; exact Bool.false_ne_true)]
    rfl
  constructor
  · intro htab
    rw [hunf false, if_pos (by simp [htab])]
    exact ⟨rfl, rfl, rfl⟩
  · intro force hexec hcase
    have hcond : ((dbTables dbAlias schemaName ≠ []) && !force) = false := by
      rcases hcase with rfl | hempty
      · simp
      · simp [hempty]
    rw [hunf force, if_neg (by simp only [hcond]; exact Bool.false_ne_true), hexec]
    refine ⟨rfl, rfl, ?_, ?_⟩
    · exact foldDel_none_stable _ _ _ _ _ (cacheDel_self _ _)
    · intro t ht
      exact foldDel_hits dbAlias schemaName _ _ t ht

/-- Witness for C7 at a concrete two-table schema. -/
theorem c7_delete_schema_guard_and_invalidation_witness :
    ((delete_schema (fun _ s => if s = "reports" then ["t1", "t2"] else [])
        (fun _ => .ok ()) "al" "reports" false emptyCache).ok = false ∧
     (delete_schema (fun _ s => if s = "reports" then ["t1", "t2"] else [])
        (fun _ => .ok ()) "al" "reports" false emptyCache).ddl = none ∧
     (delete_schema (fun _ s => if s = "reports" then ["t1", "t2"] else [])
        (fun _ => .ok ()) "al" "reports" false emptyCache).error =
       some "Schema \x27reports\x27 contains 2 table(s). Use force delete to remove them.") ∧
    ((delete_schema (fun _ s => if s = "reports" then ["t1", "t2"] else [])
        (fun _ => .ok ()) "al" "reports" true emptyCache).ok = true ∧
     (delete_schema (fun _ s => if s = "reports" then ["t1", "t2"] else [])
        (fun _ => .ok ()) "al" "reports" true emptyCache).ddl =
       some (Ddl.dropSchemaStmt "reports" true) ∧
     (delete_schema (fun _ s => if s = "reports" then ["t1", "t2"] else [])
        (fun _ => .ok ()) "al" "reports" true emptyCache).cache
       (schemasKey "al") = none ∧
     (delete_schema (fun _ s => if s = "reports" then ["t1", "t2"] else [])
        (fun _ => .ok ()) "al" "reports" true emptyCache).cache
       (columnsKey "al" "reports" "t1") = none) := by
  have h := c7_delete_schema_guard_and_invalidation
    (fun _ s => if s = "reports" then ["t1", "t2"] else []) (fun _ => .ok ())
    "al" "reports" emptyCache (by decide) (by decide) (by decide)
  have h1 := h.1 (by decide)
  have h2 := h.2 true rfl (Or.inl rfl)
  exact ⟨⟨h1.1, h1.2.1, h1.2.2.trans (by decide)⟩,
    h2.1, h2.2.1, h2.2.2.1, (h2.2.2.2 "t1" (by decide)).2.1⟩

/-- C1: batch atomicity of `table_save_rows` and `table_delete_rows` — for
any database model and executor, if the row loop accumulates any per-row
error (invalid/missing primary key or execution failure) the returned
database state is exactly the initial one (full rollback) and the response
carries the error list; if no row errors occur the final loop state commits
and the response reports the aggregate updated/deleted count. -/
theorem c1_batch_atomicity {σ : Type}
    (execUpd : σ → UpdStmt → Except String (σ × Nat))
    (execDel : σ → DelStmt → Except String (σ × Nat))
    (columns : List Col) (pkCols : List String) (db : σ)
    (rows : List UpdateRowInput) (pks : List (Option (List (String × Value))))
    (hpk : pkCols ≠ []) :
    ((saveRowsLoop execUpd (columns.map (·.name)) pkCols (colTypeOf columns)
        db 0 [] rows).2.2 ≠ [] →
      table_save_rows_core execUpd columns pkCols db rows =
        ⟨db, .failed (saveRowsLoop execUpd (columns.map (·.name)) pkCols
          (colTypeOf columns) db 0 [] rows).2.2⟩) ∧
    ((saveRowsLoop execUpd (columns.map (·.name)) pkCols (colTypeOf columns)
        db 0 [] rows).2.2 = [] →
      table_save_rows_core execUpd columns pkCols db rows =
        ⟨(saveRowsLoop execUpd (columns.map (·.name)) pkCols (colTypeOf columns)
            db 0 [] rows).1,
         .succeeded (saveRowsLoop execUpd (columns.map (·.name)) pkCols
           (colTypeOf columns) db 0 [] rows).2.1⟩) ∧
    ((deleteRowsLoop execDel pkCols db 0 [] pks).2.2 ≠ [] →
      table_delete_rows_core execDel pkCols db pks =
        ⟨db, .failed (deleteRowsLoop execDel pkCols db 0 [] pks).2.2⟩) ∧
    ((deleteRowsLoop execDel pkCols db 0 [] pks).2.2 = [] →
      table_delete_rows_core execDel pkCols db pks =
        ⟨(deleteRowsLoop execDel pkCols db 0 [] pks).1,
         .succeeded (deleteRowsLoop execDel pkCols db 0 [] pks).2.1⟩) := by
  refine ⟨?_, ?_, ?_, ?_⟩
  · intro herr
    rw [table_save_rows_core, if_neg hpk]
    simp only [if_neg herr]
  · intro herr
    rw [table_save_rows_core, if_neg hpk]
    simp only [herr, if_pos rfl]
    rfl
  · intro herr
    rw [table_delete_rows_core, if_neg hpk]
    simp only [if_neg herr]
  · intro herr
    rw [table_delete_rows_core, if_neg hpk]
    simp only [herr, if_pos rfl]
    rfl

/-- Witness for C1: a failing batch rolls back (state 0 preserved, errors
reported); an error-free batch commits (state advanced, count reported). -/
theorem c1_batch_atomicity_witness :
    table_save_rows_core (σ := Nat) (fun _ _ => .error "boom")
      [⟨"id", "integer", false, none⟩, ⟨"x", "text", true, none⟩] ["id"] 0
      [⟨some [("id", .vint 1)], [("x", .vstr "y")]⟩] =
      ⟨0, .failed [(⟨some [("id", .vint 1)], [("x", .vstr "y")]⟩, "boom")]⟩ ∧
    table_delete_rows_core (σ := Nat) (fun n _ => .ok (n + 1, 1)) ["id"] 0
      [some [("id", .vint 1)]] = ⟨1, .succeeded 1⟩ := by
  have h := c1_batch_atomicity (σ := Nat) (fun _ _ => .error "boom")
    (fun n _ => .ok (n + 1, 1))
    [⟨"id", "integer", false, none⟩, ⟨"x", "text", true, none⟩] ["id"] 0
    [⟨some [("id", .vint 1)], [("x", .vstr "y")]⟩] [some [("id", .vint 1)]]
    (by decide)
  constructor
  · exact (h.1 (by decide)).trans (by decide)
  · exact (h.2.2.2 (by decide)).trans (by decide)

theorem map_id_of_mem {α : Type} (l : List α) (f : α → α) (h : ∀ a ∈ l, f a = a) :
    l.map f = l := by
  induction l with
  | nil => rfl
  | cons a rest ih =>
    rw [List.map_cons, h a (List.mem_cons_self _ _), ih (fun x hx => h x (List.mem_cons_of_mem _ hx))]

theorem saveRowsLoop_nomatch (colAllow pkCols : List String)
    (colTypes : String → Option String) (db : List DbRow) (u : Nat)
    (e : List (UpdateRowInput × String)) (rows : List UpdateRowInput)
    (h : ∀ row ∈ rows, ∃ m, row.pk = some m ∧
      pkCols.all (fun k => (alookup m k).isSome) = true ∧
      ∀ r ∈ db, pkMatchesRow (pkCols.map (fun k => (k, (alookup m k).getD .vnull))) r = false) :
    saveRowsLoop execUpdateSql colAllow pkCols colTypes db u e rows = (db, u, e) := by
  induction rows generalizing u e with
  | nil => rfl
  | cons row rest ih =>
    obtain ⟨m, hm, hall, hnom⟩ := h row (List.mem_cons_self _ _)
    have hrest : ∀ row ∈ rest, ∃ m, row.pk = some m ∧
        pkCols.all (fun k => (alookup m k).isSome) = true ∧
        ∀ r ∈ db, pkMatchesRow (pkCols.map (fun k => (k, (alookup m k).getD .vnull))) r
          = false :=
      fun r hr => h r (List.mem_cons_of_mem _ hr)
    rw [saveRowsLoop, hm]
    simp only [hall, Bool.not_true, Bool.false_eq_true, if_false]
    by_cases hc : row.columns.filter (fun kv => kv.1 ∈ colAllow ∧ kv.1 ∉ pkCols) = []
    · rw [if_pos hc]
      exact ih u e hrest
    · rw [if_neg hc]
      have hmap : db.map (fun r =>
          if pkMatchesRow (pkCols.map (fun k => (k, (alookup m k).getD .vnull))) r then
            applySet ((row.columns.filter (fun kv => kv.1 ∈ colAllow ∧ kv.1 ∉ pkCols)).map
              (fun kv => (kv.1, _coerce_value kv.2 (colTypes kv.1)))) r
          else r) = db :=
        map_id_of_mem _ _ (fun r hr => by rw [hnom r hr]; simp)
      have hfil : db.filter (fun r =>
          pkMatchesRow (pkCols.map (fun k => (k, (alookup m k).getD .vnull))) r) = [] :=
        List.filter_eq_nil_iff.mpr (fun r hr => by simp [hnom r hr])
      simp only [execUpdateSql]
      rw [hmap, hfil]
      simp only [List.length_nil, Nat.add_zero]
      exact ih u e hrest

theorem deleteRowsLoop_nomatch (pkCols : List String) (db : List DbRow) (u : Nat)
    (e : List (Option (List (String × Value)) × String))
    (pks : List (Option (List (String × Value))))
    (h : ∀ pk ∈ pks, ∃ m, pk = some m ∧
      pkCols.all (fun k => (alookup m k).isSome) = true ∧
      ∀ r ∈ db, pkMatchesRow (pkCols.map (fun k => (k, (alookup m k).getD .vnull))) r = false) :
    deleteRowsLoop execDeleteSql pkCols db u e pks = (db, u, e) := by
  induction pks generalizing u e with
  | nil => rfl
  | cons pk rest ih =>
    obtain ⟨m, hm, hall, hnom⟩ := h pk (List.mem_cons_self _ _)
    have hrest : ∀ pk ∈ rest, ∃ m, pk = some m ∧
        pkCols.all (fun k => (alookup m k).isSome) = true ∧
        ∀ r ∈ db, pkMatchesRow (pkCols.map (fun k => (k, (alookup m k).getD .vnull))) r
          = false :=
      fun p hp => h p (List.mem_cons_of_mem _ hp)
    subst hm
    rw [deleteRowsLoop]
    simp only [hall, Bool.not_true, Bool.false_eq_true, if_false]
    have hkeep : db.filter (fun r =>
        !pkMatchesRow (pkCols.map (fun k => (k, (alookup m k).getD .vnull))) r) = db :=
      List.filter_eq_self.mpr (fun r hr => by simp [hnom r hr])
    have hfil : db.filter (fun r =>
        pkMatchesRow (pkCols.map (fun k => (k, (alookup m k).getD .vnull))) r) = [] :=
      List.filter_eq_nil_iff.mpr (fun r hr => by simp [hnom r hr])
    simp only [execDeleteSql]
    rw [hkeep, hfil]
    simp only [List.length_nil, Nat.add_zero]
    exact ih u e hrest

/-- C10: a batch row whose primary-key mapping is structurally valid but
matches no database row is not an error — under the concrete SQL semantics
both `table_save_rows_core` and `table_delete_rows_core` execute it with
rowcount 0, and a batch made only of such rows reports success with count 0
and leaves the database unchanged. -/
theorem c10_zero_match_rows_succeed (columns : List Col) (pkCols : List String)
    (db : List DbRow) (rows : List UpdateRowInput)
    (pks : List (Option (List (String × Value)))) (hpk : pkCols ≠ [])
    (hrows : ∀ row ∈ rows, ∃ m, row.pk = some m ∧
      pkCols.all (fun k => (alookup m k).isSome) = true ∧
      ∀ r ∈ db, pkMatchesRow (pkCols.map (fun k => (k, (alookup m k).getD .vnull))) r = false)
    (hpks : ∀ pk ∈ pks, ∃ m, pk = some m ∧
      pkCols.all (fun k => (alookup m k).isSome) = true ∧
      ∀ r ∈ db, pkMatchesRow (pkCols.map (fun k => (k, (alookup m k).getD .vnull))) r = false) :
    table_save_rows_core execUpdateSql columns pkCols db rows = ⟨db, .succeeded 0⟩ ∧
    table_delete_rows_core execDeleteSql pkCols db pks = ⟨db, .succeeded 0⟩ := by
  constructor
  · rw [table_save_rows_core, if_neg hpk]
    simp only [saveRowsLoop_nomatch (columns.map (·.name)) pkCols (colTypeOf columns)
      db 0 [] rows hrows]
    rfl
  · rw [table_delete_rows_core, if_neg hpk]
    simp only [deleteRowsLoop_nomatch pkCols db 0 [] pks hpks]
    rfl

/-- Witness for C10: one structurally valid primary key that matches no row
of a one-row table — both endpoints succeed with count 0 and the table is
unchanged. -/
theorem c10_zero_match_rows_succeed_witness :
    table_save_rows_core execUpdateSql
      [⟨"id", "integer", false, none⟩, ⟨"name", "text", true, none⟩] ["id"]
      [[("id", .vint 1), ("name", .vstr "a")]]
      [⟨some [("id", .vint 2)], [("name", .vstr "b")]⟩] =
      ⟨[[("id", .vint 1), ("name", .vstr "a")]], .succeeded 0⟩ ∧
    table_delete_rows_core execDeleteSql ["id"]
      [[("id", .vint 1), ("name", .vstr "a")]] [some [("id", .vint 2)]] =
      ⟨[[("id", .vint 1), ("name", .vstr "a")]], .succeeded 0⟩ :=
  c10_zero_match_rows_succeed
    [⟨"id", "integer", false, none⟩, ⟨"name", "text", true, none⟩] ["id"]
    [[("id", .vint 1), ("name", .vstr "a")]]
    [⟨some [("id", .vint 2)], [("name", .vstr "b")]⟩] [some [("id", .vint 2)]]
    (by decide) (by decide) (by decide)

theorem pkSeq_subset (columns : List Col) (pkCols : List String) :
    ∀ c ∈ get_pk_sequence_columns columns pkCols, c ∈ pkCols := by
  intro c hc
  rw [get_pk_sequence_columns, List.mem_map] at hc
  obtain ⟨col, hcol, rfl⟩ := hc
  rw [List.mem_filter] at hcol
  have := hcol.2
  simp only [Bool.and_eq_true, decide_eq_true_eq] at this
  exact this.1

theorem find_name_nodup (columns : List Col) (col : Col)
    (hnodup : (columns.map (·.name)).Nodup) (hmem : col ∈ columns) :
    columns.find? (fun cl => cl.name = col.name) = some col := by
  induction columns with
  | nil => cases hmem
  | cons c0 rest ih =>
    rw [List.map_cons, List.nodup_cons] at hnodup
    rcases List.mem_cons.mp hmem with rfl | hr
    · rw [List.find?_cons_of_pos _ (by simp)]
    · by_cases hname : c0.name = col.name
      · exact absurd (by rw [hname]; exact List.mem_map_of_mem (·.name) hr) hnodup.1
      · rw [List.find?_cons_of_neg _ (by simp [hname])]
        exact ih hnodup.2 hr

theorem insertColsLoop_ok_not_seq (columns : List Col) (pkCols pkSeq : List String)
    (cols : List (String × Value)) (names acc l : List String)
    (h : insertColsLoop columns pkCols pkSeq cols acc names = .ok l) :
    ∀ x ∈ l, x ∈ acc ∨ x ∉ pkSeq := by
  induction names generalizing acc with
  | nil =>
    rw [insertColsLoop] at h
    cases h
    exact fun x hx => .inl hx
  | cons c rest ih =>
    rw [insertColsLoop] at h
    split at h
    · exact ih acc h
    · split at h
      · exact ih acc h
      · split at h
        · cases h
        · split at h
          · cases h
          · rename_i hseq _ _ _
            intro x hx
            rcases ih _ h x hx with hacc | hns
            · rcases List.mem_append.mp hacc with h1 | h1
              · exact .inl h1
              · rw [List.mem_singleton] at h1
                subst h1
                exact .inr hseq
            · exact .inr hns

theorem insertColsLoop_err_pk (columns : List Col) (pkCols pkSeq : List String)
    (cols : List (String × Value)) (names acc : List String)
    (h : ∃ c, c ∈ names ∧ c ∈ columns.map (·.name) ∧ c ∉ pkSeq ∧ c ∈ pkCols ∧
      isEmptyInput (alookup cols c) = true) :
    isErrE (insertColsLoop columns pkCols pkSeq cols acc names) = true := by
  induction names generalizing acc with
  | nil =>
    obtain ⟨c, hc, -⟩ := h
    cases hc
  | cons c0 rest ih =>
    obtain ⟨c, hc, hnm, hns, hpk, hemp⟩ := h
    rw [insertColsLoop]
    split
    · rename_i hs
      rcases List.mem_cons.mp hc with rfl | hr
      · exact absurd hs hns
      · exact ih acc ⟨c, hr, hnm, hns, hpk, hemp⟩
    · split
      · rename_i hm
        rcases List.mem_cons.mp hc with rfl | hr
        · exact absurd hnm hm
        · exact ih acc ⟨c, hr, hnm, hns, hpk, hemp⟩
      · split
        · rfl
        · split
          · rfl
          · rename_i hc3 _
            rcases List.mem_cons.mp hc with rfl | hr
            · exact absurd (by simp [hpk, hemp]) hc3
            · exact ih _ ⟨c, hr, hnm, hns, hpk, hemp⟩

theorem insertColsLoop_err_nn (columns : List Col) (pkCols pkSeq : List String)
    (cols : List (String × Value)) (names acc : List String)
    (h : ∃ c, c ∈ names ∧ c ∈ columns.map (·.name) ∧ c ∉ pkSeq ∧ c ∉ pkCols ∧
      isEmptyInput (alookup cols c) = true ∧
      (((columns.find? (fun cl => cl.name = c)).map (·.is_nullable)).getD false) = false) :
    isErrE (insertColsLoop columns pkCols pkSeq cols acc names) = true := by
  induction names generalizing acc with
  | nil =>
    obtain ⟨c, hc, -⟩ := h
    cases hc
  | cons c0 rest ih =>
    obtain ⟨c, hc, hnm, hns, hpk, hemp, hnn⟩ := h
    rw [insertColsLoop]
    split
    · rename_i hs
      rcases List.mem_cons.mp hc with rfl | hr
      · exact absurd hs hns
      · exact ih acc ⟨c, hr, hnm, hns, hpk, hemp, hnn⟩
    · split
      · rename_i hm
        rcases List.mem_cons.mp hc with rfl | hr
        · exact absurd hnm hm
        · exact ih acc ⟨c, hr, hnm, hns, hpk, hemp, hnn⟩
      · split
        · rfl
        · split
          · rfl
          · rename_i hc4
            rcases List.mem_cons.mp hc with rfl | hr
            · exact absurd (by simp [hemp, hnn]) hc4
            · exact ih _ ⟨c, hr, hnm, hns, hpk, hemp, hnn⟩

theorem zip_self_map {α β : Type} (l : List α) (f : α → β) :
    l.zip (l.map f) = l.map (fun a => (a, f a)) := by
  induction l with
  | nil => rfl
  | cons a rest ih => simp [ih]

/-- C4: `table_insert_row` column selection and validation — sequence-backed
PK columns never appear among the inserted columns (even when the input
supplies a value); an empty non-sequence PK column fails validation; an
empty non-nullable non-PK column fails validation; empty values of selected
columns are sent as null; and a successful call always inserts at least one
column. -/
theorem c4_insert_row_selection_and_validation (columns : List Col)
    (pkCols : List String) (cols : List (String × Value)) :
    (∀ out, table_insert_row_core columns pkCols cols = .ok out →
      ∀ c ∈ get_pk_sequence_columns columns pkCols, c ∉ out.1) ∧
    ((∃ c, c ∈ columns.map (·.name) ∧ c ∉ get_pk_sequence_columns columns pkCols ∧
        c ∈ pkCols ∧ isEmptyInput (alookup cols c) = true) →
      isErrE (table_insert_row_core columns pkCols cols) = true) ∧
    ((columns.map (·.name)).Nodup →
      (∃ col, col ∈ columns ∧ col.name ∉ pkCols ∧ col.is_nullable = false ∧
        isEmptyInput (alookup cols col.name) = true) →
      isErrE (table_insert_row_core columns pkCols cols) = true) ∧
    (∀ out, table_insert_row_core columns pkCols cols = .ok out → out.1 ≠ []) ∧
    (∀ out, table_insert_row_core columns pkCols cols = .ok out →
      ∀ p ∈ out.1.zip out.2, isEmptyInput (alookup cols p.1) = true → p.2 = .vnull) := by
  have herr : ∀ (h : isErrE (insertColsLoop columns pkCols
      (get_pk_sequence_columns columns pkCols) cols [] (columns.map (·.name))) = true),
      isErrE (table_insert_row_core columns pkCols cols) = true := by
    intro h
    rw [table_insert_row_core]
    cases hl : insertColsLoop columns pkCols (get_pk_sequence_columns columns pkCols)
        cols [] (columns.map (·.name)) with
    | error e => rfl
    | ok l => rw [hl, isErrE] at h; cases h
  refine ⟨?_, ?_, ?_, ?_, ?_⟩
  · intro out hout c hc hcin
    rw [table_insert_row_core] at hout
    cases hl : insertColsLoop columns pkCols (get_pk_sequence_columns columns pkCols)
        cols [] (columns.map (·.name)) with
    | error e => rw [hl] at hout; cases hout
    | ok l =>
      rw [hl] at hout
      dsimp only at hout
      by_cases hnil : l = []
      · rw [if_pos hnil] at hout; cases hout
      · rw [if_neg hnil] at hout
        cases hout
        rcases insertColsLoop_ok_not_seq columns pkCols _ cols _ [] l hl c hcin with h0 | h0
        · cases h0
        · exact h0 hc
  · intro ⟨c, hnm, hns, hpk, hemp⟩
    exact herr (insertColsLoop_err_pk columns pkCols _ cols _ []
      ⟨c, hnm, hnm, hns, hpk, hemp⟩)
  · intro hnodup ⟨col, hcol, hpk, hnul, hemp⟩
    have hcn : col.name ∈ columns.map (·.name) := List.mem_map_of_mem (·.name) hcol
    have hfind := find_name_nodup columns col hnodup hcol
    refine herr (insertColsLoop_err_nn columns pkCols _ cols _ []
      ⟨col.name, hcn, hcn, ?_, hpk, hemp, ?_⟩)
    · intro hseq
      exact hpk (pkSeq_subset columns pkCols _ hseq)
    · rw [hfind]
      simp [hnul]
  · intro out hout
    rw [table_insert_row_core] at hout
    cases hl : insertColsLoop columns pkCols (get_pk_sequence_columns columns pkCols)
        cols [] (columns.map (·.name)) with
    | error e => rw [hl] at hout; cases hout
    | ok l =>
      rw [hl] at hout
      dsimp only at hout
      by_cases hnil : l = []
      · rw [if_pos hnil] at hout; cases hout
      · rw [if_neg hnil] at hout
        cases hout
        exact hnil
  · intro out hout p hp hemp
    rw [table_insert_row_core] at hout
    cases hl : insertColsLoop columns pkCols (get_pk_sequence_columns columns pkCols)
        cols [] (columns.map (·.name)) with
    | error e => rw [hl] at hout; cases hout
    | ok l =>
      rw [hl] at hout
      dsimp only at hout
      by_cases hnil : l = []
      · rw [if_pos hnil] at hout; cases hout
      · rw [if_neg hnil] at hout
        cases hout
        rw [zip_self_map, List.mem_map] at hp
        obtain ⟨a, ha, rfl⟩ := hp
        simp only at hemp
        simp [hemp]

/-- Witness for C4: the sequence PK is omitted despite a supplied value, a
missing non-sequence PK fails, and a missing non-nullable column fails. -/
theorem c4_insert_row_selection_and_validation_witness :
    table_insert_row_core
      [⟨"id", "integer", false, some "nextval(\x27s\x27::regclass)"⟩,
       ⟨"name", "text", false, none⟩, ⟨"note", "text", true, none⟩]
      ["id"] [("id", .vint 99), ("name", .vstr "x")] =
      .ok (["name", "note"], [.vstr "x", .vnull]) ∧
    ("id" ∉ (["name", "note"] : List String)) ∧
    isErrE (table_insert_row_core [⟨"id", "integer", false, none⟩] ["id"] []) = true ∧
    isErrE (table_insert_row_core [⟨"a", "text", false, none⟩] [] []) = true := by
  refine ⟨rfl, ?_, ?_, ?_⟩
  · intro hmem
    have h := (c4_insert_row_selection_and_validation
      [⟨"id", "integer", false, some "nextval(\x27s\x27::regclass)"⟩,
       ⟨"name", "text", false, none⟩, ⟨"note", "text", true, none⟩]
      ["id"] [("id", .vint 99), ("name", .vstr "x")]).1
      (["name", "note"], [.vstr "x", .vnull]) rfl "id" (by decide)
    exact h hmem
  · exact (c4_insert_row_selection_and_validation [⟨"id", "integer", false, none⟩]
      ["id"] []).2.1 ⟨"id", by decide, by decide, by decide, by decide⟩
  · exact (c4_insert_row_selection_and_validation [⟨"a", "text", false, none⟩]
      [] []).2.2.1 (by decide)
      ⟨⟨"a", "text", false, none⟩, by decide, by decide, by decide, by decide⟩

/-- C2 (counterexample): the effective page size is not normalized into
`[1, 200]` — a requested size of 0 stays 0 and a negative request stays
negative. -/
theorem c2_pagination_bounds_counterexample :
    gridPerPage 0 = 0 ∧ ¬(1 ≤ gridPerPage 0) ∧ gridPerPage (-5) = -5 := by
  refine ⟨rfl, by decide, rfl⟩

/-- C2 (amended): the effective page size is `min(requested, 200)` — clamped
above at 200, so any requested size ≥ 1 lands in `[1, 200]`, while 0 and
negative sizes pass through unclamped; the page number is normalized to at
least 1; and the offset is `(pageNum - 1) * pageSize` on the effective
values. -/
theorem c2_pagination_bounds (n m : Int) :
    gridPerPage n ≤ 200 ∧
    (1 ≤ n → 1 ≤ gridPerPage n ∧ gridPerPage n ≤ 200) ∧
    (n ≤ 0 → gridPerPage n = n) ∧
    1 ≤ gridPageNum m ∧
    (1 ≤ m → gridPageNum m = m) ∧
    gridOffset m n = (gridPageNum m - 1) * gridPerPage n := by
  refine ⟨?_, fun h => ⟨?_, ?_⟩, fun h => ?_, ?_, fun h => ?_, rfl⟩ <;>
    simp [gridPerPage, gridPageNum] <;> omega

/-- Witness for the amended C2 at concrete requests. -/
theorem c2_pagination_bounds_witness :
    1 ≤ gridPerPage 7 ∧ gridPerPage 7 ≤ 200 ∧ gridPerPage 0 = 0 ∧
    1 ≤ gridPageNum (-3) ∧ gridPageNum 4 = 4 := by
  have h7 := c2_pagination_bounds 7 4
  have h0 := c2_pagination_bounds 0 (-3)
  exact ⟨(h7.2.1 (by decide)).1, (h7.2.1 (by decide)).2, h0.2.2.1 (by decide),
    h0.2.2.2.1, h7.2.2.2.2.1 (by decide)⟩

/-- C8: sort resolution — when the requested sort column is missing, empty,
or not in the current column list, the query sorts by the first primary-key
column, or by the first declared column when the table has no primary key;
and a direction whose lowercase form is neither `asc` nor `desc` resolves
to `asc` (a recognized direction is kept in lowercase). -/
theorem c8_sort_resolution (column_names pk_columns : List String)
    (sortParam orderParam : Option String)
    (_hnames : column_names ≠ [])
    (hsort : sortColOk column_names sortParam = false) :
    (pk_columns ≠ [] →
      (resolve_sort column_names pk_columns sortParam orderParam).1 = pk_columns.headD "") ∧
    (pk_columns = [] →
      (resolve_sort column_names pk_columns sortParam orderParam).1 = column_names.headD "") ∧
    (¬(pyLower (orderOrAsc orderParam) = "asc" ∨ pyLower (orderOrAsc orderParam) = "desc") →
      (resolve_sort column_names pk_columns sortParam orderParam).2 = "asc") ∧
    ((pyLower (orderOrAsc orderParam) = "asc" ∨ pyLower (orderOrAsc orderParam) = "desc") →
      (resolve_sort column_names pk_columns sortParam orderParam).2 =
        pyLower (orderOrAsc orderParam)) := by
  refine ⟨?_, ?_, ?_, ?_⟩
  · intro hpk
    rw [resolve_sort.eq_def]
    simp only [hsort, Bool.false_eq_true, if_false]
    cases pk_columns with
    | nil => exact absurd rfl hpk
    | cons p rest => rfl
  · intro hpk
    subst hpk
    rw [resolve_sort.eq_def]
    simp only [hsort, Bool.false_eq_true, if_false]
  · intro hdir
    rw [resolve_sort.eq_def]
    simp only [if_neg hdir]
  · intro hdir
    rw [resolve_sort.eq_def]
    simp only [if_pos hdir]

/-- Witness for C8: unknown sort column falls back to the PK (or the first
column absent a PK), and an unknown direction resolves to `asc`. -/
theorem c8_sort_resolution_witness :
    (resolve_sort ["a", "b"] ["b"] (some "zzz") (some "UPWARD")).1 = "b" ∧
    (resolve_sort ["a", "b"] [] (some "zzz") (some "UPWARD")).1 = "a" ∧
    (resolve_sort ["a", "b"] ["b"] (some "zzz") (some "UPWARD")).2 = "asc" ∧
    (resolve_sort ["a", "b"] ["b"] (some "zzz") (some "DESC")).2 = "desc" := by
  have h1 := c8_sort_resolution ["a", "b"] ["b"] (some "zzz") (some "UPWARD")
    (by decide) (by decide)
  have h2 := c8_sort_resolution ["a", "b"] [] (some "zzz") (some "UPWARD")
    (by decide) (by decide)
  have h3 := c8_sort_resolution ["a", "b"] ["b"] (some "zzz") (some "DESC")
    (by decide) (by decide)
  exact ⟨h1.1 (by decide), h2.2.1 rfl, h1.2.2.1 (by decide),
    (h3.2.2.2 (by decide)).trans (by decide)⟩

theorem assocGet_set_self (l : List (String × ConnDesc)) (k : String) (v : ConnDesc) :
    assocGet (assocSet l k v) k = some v := by
  rw [assocSet, assocGet, List.find?_cons_of_pos _ (by simp)]
  rfl

theorem assocGet_set_ne (l : List (String × ConnDesc)) (k b : String) (v : ConnDesc)
    (h : b ≠ k) : assocGet (assocSet l k v) b = assocGet l b := by
  rw [assocSet, assocGet, List.find?_cons_of_neg _ (by simp [Ne.symm h])]
  rw [assocGet]
  congr 1
  induction l with
  | nil => rfl
  | cons p rest ih =>
    by_cases hp : p.1 = k
    · rw [List.filter_cons_of_neg (by simp [hp]),
        List.find?_cons_of_neg _ (by simp [hp]; exact Ne.symm h), ih]
    · by_cases hb : p.1 = b
      · rw [List.filter_cons_of_pos (by simp [hp]), List.find?_cons_of_pos _ (by simp [hb]),
          List.find?_cons_of_pos _ (by simp [hb])]
      · rw [List.filter_cons_of_pos (by simp [hp]), List.find?_cons_of_neg _ (by simp [hb]),
          List.find?_cons_of_neg _ (by simp [hb]), ih]

/-- C9: `ensure_database_connection` upsert semantics — when the owner-scoped
lookup finds the stored config, the live registry entry for the alias is
unconditionally overwritten with the descriptor derived from the current
config (autocommit on, connection max age 0, health checks off, the process
timezone), the previously open handle for the alias is closed, and entries
of other aliases are untouched; when no config matches, a not-found error is
raised and no registry is produced. -/
theorem c9_ensure_connection_upsert (store : List DbConfigM) (settingsTz : Option String)
    (dbAlias : String) (user : Option Nat) (reg : Registry) :
    (∀ cfg, objects_get store user dbAlias = .ok cfg →
      ∃ reg', ensure_database_connection store settingsTz dbAlias user reg = .ok reg' ∧
        assocGet reg'.databases dbAlias = some (get_connection_config cfg settingsTz) ∧
        (get_connection_config cfg settingsTz).autocommit = true ∧
        (get_connection_config cfg settingsTz).connMaxAge = 0 ∧
        (get_connection_config cfg settingsTz).connHealthChecks = false ∧
        (get_connection_config cfg settingsTz).timeZone = settingsTz ∧
        dbAlias ∉ reg'.openAliases ∧
        (∀ b, b ≠ dbAlias → assocGet reg'.databases b = assocGet reg.databases b ∧
          (b ∈ reg'.openAliases ↔ b ∈ reg.openAliases))) ∧
    (objects_get store user dbAlias = .error "DatabaseConfig.DoesNotExist" →
      ensure_database_connection store settingsTz dbAlias user reg =
        .error "DatabaseConfig.DoesNotExist") := by
  constructor
  · intro cfg hcfg
    refine ⟨_, by rw [ensure_database_connection, hcfg], ?_, rfl, rfl, rfl, rfl, ?_, ?_⟩
    · exact assocGet_set_self reg.databases dbAlias (get_connection_config cfg settingsTz)
    · intro hmem
      rw [List.mem_filter] at hmem
      simp at hmem
    · intro b hb
      refine ⟨assocGet_set_ne reg.databases dbAlias b _ hb, ?_⟩
      rw [List.mem_filter]
      simp [hb]
  · intro herr
    rw [ensure_database_connection, herr]

/-- Witness for C9: one stored config is installed with the fixed defaults
and the open handle is closed; a missing alias raises `DoesNotExist`. -/
theorem c9_ensure_connection_upsert_witness :
    (ensure_database_connection
        [⟨7, "db1", "h", 5432, "orders", "public", "u", "pw"⟩] (some "UTC") "db1" (some 7)
        ⟨[], ["db1"]⟩ =
      .ok ⟨[("db1", get_connection_config ⟨7, "db1", "h", 5432, "orders", "public", "u", "pw"⟩
        (some "UTC"))], []⟩) ∧
    (get_connection_config ⟨7, "db1", "h", 5432, "orders", "public", "u", "pw"⟩
      (some "UTC")).autocommit = true ∧
    ensure_database_connection
        [⟨7, "db1", "h", 5432, "orders", "public", "u", "pw"⟩] (some "UTC") "nope" (some 7)
        ⟨[], ["db1"]⟩ =
      .error "DatabaseConfig.DoesNotExist" := by
  refine ⟨rfl, ?_, ?_⟩
  · obtain ⟨reg', -, -, hauto, -⟩ := (c9_ensure_connection_upsert
      [⟨7, "db1", "h", 5432, "orders", "public", "u", "pw"⟩] (some "UTC") "db1" (some 7)
      ⟨[], ["db1"]⟩).1 ⟨7, "db1", "h", 5432, "orders", "public", "u", "pw"⟩ rfl
    exact hauto
  · exact (c9_ensure_connection_upsert
      [⟨7, "db1", "h", 5432, "orders", "public", "u", "pw"⟩] (some "UTC") "nope" (some 7)
      ⟨[], ["db1"]⟩).2 rfl

end LocalDbEditor
